import Mathlib

/-!
Verification of the lazywireguard core against its specification.

The development shallowly embeds the two algorithmic subsystems of the
repository:

* `AddressAssigner.py` — the address-space allocator: CIDR networks are
  triples `(version, base, prefixlen)` over `Nat`; the Python standard
  library operations used by the source (`address_exclude`, network
  indexing, comparison/sorting) are embedded faithfully, including the
  exception behaviour (`TypeError` on version mismatch, `ValueError`
  when the excluded network is not a subnet of the entry).
* `IPTablesRulesGenerator.py` — the routing-rule compiler: the rule
  grammar regex, arrow normalization, symbolic side resolution and the
  cartesian expansion into iptables command lines.
* `WireguardGenerator.py` — the duplicate-hostname check.

Fallible Python code is modelled with `Except PyErr`.
-/

/-- Bit width of an IP address of the given version (4 or 6), as in the
Python `ipaddress` module (`max_prefixlen`). -/
def ipWidth (v : Nat) : Nat := if v = 4 then 32 else 128

/-- An IP address: version (4 or 6) plus its integer value, mirroring
Python `IPv4Address`/`IPv6Address` (`int(addr)`). -/
structure IPAddress where
  version : Nat
  value : Nat
  deriving DecidableEq, Repr

/-- A CIDR network: version, network address (as integer, host bits zero
for valid networks) and prefix length, mirroring Python
`IPv4Network`/`IPv6Network`. -/
structure IPNetwork where
  version : Nat
  base : Nat
  prefixlen : Nat
  deriving DecidableEq, Repr

/-- `num_addresses` of a network: `2 ^ (max_prefixlen - prefixlen)`. -/
def IPNetwork.numAddresses (n : IPNetwork) : Nat :=
  2 ^ (ipWidth n.version - n.prefixlen)

/-- `network_address` of a network, as an `IPAddress`. -/
def IPNetwork.networkAddress (n : IPNetwork) : IPAddress :=
  ⟨n.version, n.base⟩

/-- `broadcast_address` of a network (its last address; Python defines it
for IPv6 networks as well). -/
def IPNetwork.broadcastAddress (n : IPNetwork) : IPAddress :=
  ⟨n.version, n.base + n.numAddresses - 1⟩

/-- The integer `x` lies in the address range of network `n`
(version ignored; callers pair it with a version check where needed). -/
def IPNetwork.containsNat (n : IPNetwork) (x : Nat) : Prop :=
  n.base ≤ x ∧ x < n.base + n.numAddresses

instance (n : IPNetwork) (x : Nat) : Decidable (n.containsNat x) :=
  inferInstanceAs (Decidable (_ ∧ _))

/-- Python `addr in network` (`__contains__`): version must match and the
integer value must lie in the network range. -/
def IPAddress.inNet (a : IPAddress) (n : IPNetwork) : Prop :=
  a.version = n.version ∧ n.containsNat a.value

instance (a : IPAddress) (n : IPNetwork) : Decidable (a.inNet n) :=
  inferInstanceAs (Decidable (_ ∧ _))

/-- Range inclusion of two networks, as plain arithmetic (the semantic
counterpart of Python `subnet_of`). -/
def netSub (a b : IPNetwork) : Prop :=
  b.base ≤ a.base ∧ a.base + a.numAddresses ≤ b.base + b.numAddresses

instance (a b : IPNetwork) : Decidable (netSub a b) :=
  inferInstanceAs (Decidable (_ ∧ _))

/-- Disjointness of the address ranges of two networks. -/
def netDisjoint (a b : IPNetwork) : Prop :=
  a.base + a.numAddresses ≤ b.base ∨ b.base + b.numAddresses ≤ a.base

instance (a b : IPNetwork) : Decidable (netDisjoint a b) :=
  inferInstanceAs (Decidable (_ ∨ _))

/-- Python `a.subnet_of(b)` for same-version networks: compares the
network addresses and the broadcast addresses (`b.network_address <=
a.network_address and a.broadcast_address <= b.broadcast_address`). -/
def subnetOf (a b : IPNetwork) : Bool :=
  decide (b.base ≤ a.base) &&
    decide (a.base + a.numAddresses - 1 ≤ b.base + b.numAddresses - 1)

/-- A structurally well-formed network, the invariant every Python
`ip_network` object satisfies by construction: version 4 or 6, prefix
within range, base address within the address space and host bits zero. -/
def validNet (n : IPNetwork) : Prop :=
  (n.version = 4 ∨ n.version = 6) ∧ n.prefixlen ≤ ipWidth n.version ∧
    n.base < 2 ^ ipWidth n.version ∧ n.base % n.numAddresses = 0

instance (n : IPNetwork) : Decidable (validNet n) :=
  inferInstanceAs (Decidable (_ ∧ _ ∧ _ ∧ _))

/-- A structurally well-formed address. -/
def validAddr (a : IPAddress) : Prop :=
  (a.version = 4 ∨ a.version = 6) ∧ a.value < 2 ^ ipWidth a.version

instance (a : IPAddress) : Decidable (validAddr a) :=
  inferInstanceAs (Decidable (_ ∧ _))

/-- First half of `n.subnets()` in Python: same base, prefix one longer. -/
def lowerHalf (n : IPNetwork) : IPNetwork :=
  ⟨n.version, n.base, n.prefixlen + 1⟩

/-- Second half of `n.subnets()` in Python. -/
def upperHalf (n : IPNetwork) : IPNetwork :=
  ⟨n.version, n.base + 2 ^ (ipWidth n.version - n.prefixlen - 1), n.prefixlen + 1⟩

/-- Error values corresponding to the Python exceptions the embedded code
can raise (`Exceptions.py` plus the built-in `TypeError`/`ValueError`
raised inside the `ipaddress` standard library). -/
inductive PyErr where
  | typeError : PyErr
  | valueError : PyErr
  | assignmentException : IPNetwork → PyErr
  | ruleParseException : String → PyErr
  | noSuchHostException : String → PyErr
  | noSuchGroupException : String → PyErr
  | duplicateNameException : String → PyErr
  deriving DecidableEq, Repr

deriving instance DecidableEq for Except

/-- The splitting loop of Python `_BaseNetwork.address_exclude`: starting
from `self`, repeatedly split into the two halves; if a half equals
`other` yield the sibling and stop, otherwise yield the sibling of the
half containing `other` and recurse into that half.  `fuel` bounds the
recursion (the callers pass the address width, which suffices because the
prefix length grows by one per step); the unreachable `AssertionError`
branch and fuel exhaustion return `[]`. -/
def excludeAux : Nat → IPNetwork → IPNetwork → List IPNetwork
  | 0, _, _ => []
  | fuel + 1, self, other =>
    let s1 := lowerHalf self
    let s2 := upperHalf self
    if s1 = other then [s2]
    else if s2 = other then [s1]
    else if subnetOf other s1 then s2 :: excludeAux fuel s1 other
    else if subnetOf other s2 then s1 :: excludeAux fuel s2 other
    else []

/-- Python `self.address_exclude(other)` as consumed by a full iteration
of the returned generator: `TypeError` on version mismatch, `ValueError`
when `other` is not a subnet of `self`, the empty list when they are
equal, and otherwise the list of sibling fragments. -/
def address_exclude (self other : IPNetwork) : Except PyErr (List IPNetwork) :=
  if self.version ≠ other.version then .error .typeError
  else if ¬ subnetOf other self then .error .valueError
  else if other = self then .ok []
  else .ok (excludeAux (ipWidth self.version) self other)

/-- Ordering used by Python `list.sort()` on networks
(`_BaseNetwork.__lt__`: by network address, then netmask).  Python raises
`TypeError` on mixed versions; the embedding totalizes the order by
comparing versions first, which coincides with Python on the
single-version lists the program builds. -/
def netLe (a b : IPNetwork) : Prop :=
  a.version < b.version ∨
    (a.version = b.version ∧
      (a.base < b.base ∨ (a.base = b.base ∧ a.prefixlen ≤ b.prefixlen)))

instance : DecidableRel netLe := fun a b => by
  unfold netLe; infer_instance

/-- `self._assignable.sort()`. -/
def sortNets (l : List IPNetwork) : List IPNetwork :=
  List.insertionSort netLe l

/-- The state of an `AddressAssigner` instance: its four attributes. -/
structure AddressAssigner where
  root_network : IPNetwork
  assignable : List IPNetwork
  net_index : Nat
  addr_index : Nat
  deriving DecidableEq, Repr

/-- The loop body of `AddressAssigner.exclude_net`: build the new
assignable list entry by entry, keeping an entry when `address_exclude`
raises `ValueError` ("Non overlap" in the source) and propagating any
other exception. -/
def excludeEntries : List IPNetwork → IPNetwork → Except PyErr (List IPNetwork)
  | [], _ => .ok []
  | e :: rest, network =>
    match address_exclude e network with
    | .ok frags =>
      match excludeEntries rest network with
      | .ok tail => .ok (frags ++ tail)
      | .error err => .error err
    | .error .valueError =>
      match excludeEntries rest network with
      | .ok tail => .ok (e :: tail)
      | .error err => .error err
    | .error err => .error err

/-- `AddressAssigner.exclude_net`: subtract `network` from every
assignable entry (entries raising `ValueError` pass through unchanged),
then re-sort the assignable list. -/
def exclude_net (s : AddressAssigner) (network : IPNetwork) :
    Except PyErr AddressAssigner :=
  match excludeEntries s.assignable network with
  | .ok still => .ok { s with assignable := sortNets still }
  | .error err => .error err

/-- Python `ipaddress.ip_network(address)` applied to an address object:
the /32 (or /128) host network of the address. -/
def hostNet (a : IPAddress) : IPNetwork :=
  ⟨a.version, a.value, ipWidth a.version⟩

/-- `AddressAssigner.exclude_address`: a silent no-op when the address
version differs from the root network's version, otherwise exclusion of
the host network of the address. -/
def exclude_address (s : AddressAssigner) (a : IPAddress) :
    Except PyErr AddressAssigner :=
  if a.version ≠ s.root_network.version then .ok s
  else exclude_net s (hostNet a)

/-- `AddressAssigner.__init__`: assignable starts as `[root_network]`,
then the root's network address and broadcast address are excluded
(unconditionally, for either address family), and both cursor indices
start at zero. -/
def mkAssigner (root : IPNetwork) : Except PyErr AddressAssigner :=
  match exclude_address ⟨root, [root], 0, 0⟩ root.networkAddress with
  | .ok s1 =>
    match exclude_address s1 root.broadcastAddress with
    | .ok s2 => .ok s2
    | .error err => .error err
  | .error err => .error err

/-- Python `network[i]`: the `i`-th address of the network, or an
`IndexError` (modelled as `none`) when `i` is out of range. -/
def netGetAddr (n : IPNetwork) (i : Nat) : Option IPAddress :=
  if i < n.numAddresses then some ⟨n.version, n.base + i⟩ else none

/-- `self._assignable[ni][ai]` with both `IndexError`s mapped to
`none`. -/
def tryIndex (s : AddressAssigner) (ni ai : Nat) : Option IPAddress :=
  match s.assignable[ni]? with
  | some net => netGetAddr net ai
  | none => none

/-- `AddressAssigner.assign`: read the address under the cursor and
advance the address index; on `IndexError` reset the address index, move
to the next entry and retry once; a second `IndexError` raises
`AssignmentException` carrying the root network. -/
def assign (s : AddressAssigner) : Except PyErr (IPAddress × AddressAssigner) :=
  match tryIndex s s.net_index s.addr_index with
  | some a => .ok (a, { s with addr_index := s.addr_index + 1 })
  | none =>
    match tryIndex s (s.net_index + 1) 0 with
    | some a => .ok (a, { s with net_index := s.net_index + 1, addr_index := 1 })
    | none => .error (.assignmentException s.root_network)

/-- `n` successive `assign()` calls, collecting the returned addresses. -/
def assignN : AddressAssigner → Nat → Except PyErr (List IPAddress × AddressAssigner)
  | s, 0 => .ok ([], s)
  | s, n + 1 =>
    match assign s with
    | .ok (a, s1) =>
      match assignN s1 n with
      | .ok (rs, s2) => .ok (a :: rs, s2)
      | .error err => .error err
    | .error err => .error err

/-- An exclusion request: a single address (routed through
`exclude_address`) or a network (routed through `exclude_net`). -/
inductive ExclReq where
  | addr : IPAddress → ExclReq
  | net : IPNetwork → ExclReq
  deriving DecidableEq, Repr

/-- Apply one exclusion request. -/
def applyExclusion (s : AddressAssigner) : ExclReq → Except PyErr AddressAssigner
  | .addr a => exclude_address s a
  | .net n => exclude_net s n

/-- Apply a list of exclusion requests in order, stopping at the first
exception. -/
def excludeAll : AddressAssigner → List ExclReq → Except PyErr AddressAssigner
  | s, [] => .ok s
  | s, r :: rest =>
    match applyExclusion s r with
    | .ok s1 => excludeAll s1 rest
    | .error err => .error err

/-- Apply a list of single-address exclusions in order
(`exclude_address` only). -/
def excludeAddresses : AddressAssigner → List IPAddress → Except PyErr AddressAssigner
  | s, [] => .ok s
  | s, a :: rest =>
    match exclude_address s a with
    | .ok s1 => excludeAddresses s1 rest
    | .error err => .error err

/-- The loop of `WireguardGenerator._check_no_duplicate_name`, with the
`seen_names` set made explicit: the source raises when a host name is in
`seen_names`, but never inserts anything into `seen_names`. -/
def checkNoDuplicateNameLoop (seenNames : List String) :
    List String → Except PyErr Unit
  | [] => .ok ()
  | name :: rest =>
    if name ∈ seenNames then .error (.duplicateNameException name)
    else checkNoDuplicateNameLoop seenNames rest

/-- `WireguardGenerator._check_no_duplicate_name` over the list of host
names: starts with an empty `seen_names` set. -/
def check_no_duplicate_name (names : List String) : Except PyErr Unit :=
  checkNoDuplicateNameLoop [] names

/-! ## Concrete sample inputs used by the claim theorems -/

/-- The IPv4 network 10.0.0.0/30. -/
def sampleNet30 : IPNetwork := ⟨4, 0x0A000000, 30⟩

/-- The IPv4 network 10.0.0.0/28. -/
def sampleNet28 : IPNetwork := ⟨4, 0x0A000000, 28⟩

/-- The IPv4 network 10.0.0.4/30. -/
def sampleExA : IPNetwork := ⟨4, 0x0A000004, 30⟩

/-- The IPv4 network 10.0.0.4/31. -/
def sampleExB : IPNetwork := ⟨4, 0x0A000004, 31⟩

/-- The IPv4 network 10.0.0.8/29. -/
def sampleEx29 : IPNetwork := ⟨4, 0x0A000008, 29⟩

/-- The IPv6 network fd00::/64. -/
def sampleV6Net64 : IPNetwork := ⟨6, 0xfd00 * 2 ^ 112, 64⟩

/-- The IPv6 network fd00::/126. -/
def sampleV6Root : IPNetwork := ⟨6, 0xfd00 * 2 ^ 112, 126⟩

/-- A freshly initialised assigner state on 10.0.0.0/30 before the
constructor exclusions (used as a concrete state for witnesses). -/
def sampleState30 : AddressAssigner := ⟨sampleNet30, [sampleNet30], 0, 0⟩

/-! ## C4, C5, C10 and the counterexamples for C3, C7, C9 -/

/-- C4: on the IPv4 root 10.0.0.0/30 the first two `assign()` calls
succeed and return the two usable addresses 10.0.0.1 and 10.0.0.2, and
the third call fails with the `AssignmentException` carrying the root
network. -/
theorem c4_slash30_exhaustion :
    Except.map Prod.fst ((mkAssigner sampleNet30).bind (fun s => assignN s 2)) =
      .ok [⟨4, 0x0A000001⟩, ⟨4, 0x0A000002⟩] ∧
    (mkAssigner sampleNet30).bind (fun s => assignN s 3) =
      .error (.assignmentException sampleNet30) := by
  decide

/-- C10: `_check_no_duplicate_name` never raises on any list of host
names (the source never inserts into its `seen_names` set, so the
membership test is always false and `DuplicateNameException` is
unreachable), even when names repeat. -/
theorem c10_duplicate_check_never_raises :
    ∀ names : List String, check_no_duplicate_name names = .ok () := by
  intro names
  unfold check_no_duplicate_name
  induction names with
  | nil => rfl
  | cons name rest ih =>
    simpa [checkNoDuplicateNameLoop] using ih

/-- C5 (code bug): on the allocator constructed over 10.0.0.0/28,
excluding 10.0.0.8/29 is a complete no-op even though the assignable
entry 10.0.0.8/30 is fully covered by the excluded network
(`address_exclude` raises `ValueError` because the excluded network is
not a subnet of the entry, and `exclude_net` misreads that as
non-overlap): the state is unchanged and the fully covered entry is
still assignable. -/
theorem c5_fully_covered_entry_kept :
    ((mkAssigner sampleNet28).bind (fun s => exclude_net s sampleEx29) =
      mkAssigner sampleNet28) ∧
    subnetOf ⟨4, 0x0A000008, 30⟩ sampleEx29 = true ∧
    Except.map (fun s => decide ((⟨4, 0x0A000008, 30⟩ : IPNetwork) ∈ s.assignable))
        (mkAssigner sampleNet28) = .ok true := by
  decide

/-- C7 counterexample: an exclusion request for a *network* whose address
family differs from the root's is not a silent no-op: `exclude_net` on
the IPv4 allocator 10.0.0.0/30 with the IPv6 network fd00::/64
propagates the `TypeError` raised by `address_exclude`. -/
theorem c7_counterexample :
    (mkAssigner sampleNet30).bind (fun s => exclude_net s sampleV6Net64) =
      .error .typeError := by
  decide

/-- C7 amended: a *single-address* exclusion request whose address family
differs from the root network's family is a silent no-op:
`exclude_address` raises nothing and leaves the state (in particular the
assignable list) exactly unchanged. -/
theorem c7_amended_wrong_family_address_noop (s : AddressAssigner) (a : IPAddress)
    (h : a.version ≠ s.root_network.version) : exclude_address s a = .ok s := by
  unfold exclude_address
  rw [if_pos h]

/-- Witness for the C7 amended theorem at a concrete input: excluding the
IPv6 address ::1 from an IPv4 allocator state is a no-op. -/
theorem c7_amended_witness :
    (⟨6, 1⟩ : IPAddress).version ≠ sampleState30.root_network.version ∧
      exclude_address sampleState30 ⟨6, 1⟩ = .ok sampleState30 :=
  ⟨by decide, c7_amended_wrong_family_address_noop _ _ (by decide)⟩

/-- C9 counterexample: for the IPv6 root fd00::/126 the constructor does
*not* exclude only the network address: the actual constructor result
differs from the state in which only the network address has been
excluded, and the root's last (broadcast) address fd00::3 is absent from
every assignable entry. -/
theorem c9_counterexample :
    mkAssigner sampleV6Root ≠
      exclude_address ⟨sampleV6Root, [sampleV6Root], 0, 0⟩ sampleV6Root.networkAddress ∧
    Except.map
        (fun s => s.assignable.all fun e => ! decide (e.containsNat (sampleV6Root.base + 3)))
        (mkAssigner sampleV6Root) = .ok true := by
  decide

/-- C3 counterexample: applying the exclusion networks 10.0.0.4/31 and
10.0.0.4/30 to the allocator on 10.0.0.0/28 in the two possible orders
yields different final assignable lists (excluding /31 first splits the
/30 entry into 10.0.0.6/31, which the subsequent /30 exclusion then
keeps because `address_exclude` raises `ValueError` for an entry
strictly inside the excluded network). -/
theorem c3_counterexample :
    ([ExclReq.net sampleExB, ExclReq.net sampleExA].Perm
        [ExclReq.net sampleExA, ExclReq.net sampleExB]) ∧
    (mkAssigner sampleNet28).bind (fun s => excludeAll s [.net sampleExB, .net sampleExA]) ≠
      (mkAssigner sampleNet28).bind (fun s => excludeAll s [.net sampleExA, .net sampleExB]) := by
  refine ⟨.swap _ _ _, by decide⟩

/-! ## Arithmetic facts about CIDR networks -/

/-- Every network has at least one address. -/
lemma numAddresses_pos (n : IPNetwork) : 0 < n.numAddresses :=
  pow_pos (by norm_num) _

/-- `subnet_of` agrees with range inclusion. -/
lemma subnetOf_iff (a b : IPNetwork) : subnetOf a b = true ↔ netSub a b := by
  have ha := numAddresses_pos a
  have hb := numAddresses_pos b
  unfold subnetOf netSub
  simp only [Bool.and_eq_true, decide_eq_true_eq]
  omega

/-- A valid network fits inside its address space. -/
lemma valid_base_add_num {n : IPNetwork} (h : validNet n) :
    n.base + n.numAddresses ≤ 2 ^ ipWidth n.version := by
  obtain ⟨-, hp, hbase, hmod⟩ := h
  have hdvd1 : n.numAddresses ∣ 2 ^ ipWidth n.version :=
    pow_dvd_pow 2 (Nat.sub_le _ _)
  have hdvd2 : n.numAddresses ∣ n.base := Nat.dvd_of_mod_eq_zero hmod
  rcases Nat.eq_zero_or_pos (2 ^ ipWidth n.version - n.base) with h0 | hpos
  · omega
  · have h4 := Nat.le_of_dvd hpos (Nat.dvd_sub' hdvd1 hdvd2)
    omega

lemma lowerHalf_version (n : IPNetwork) : (lowerHalf n).version = n.version := rfl

lemma upperHalf_version (n : IPNetwork) : (upperHalf n).version = n.version := rfl

lemma lowerHalf_prefixlen (n : IPNetwork) : (lowerHalf n).prefixlen = n.prefixlen + 1 := rfl

lemma upperHalf_prefixlen (n : IPNetwork) : (upperHalf n).prefixlen = n.prefixlen + 1 := rfl

/-- Sizes of the two halves of a splittable network. -/
lemma half_facts {n : IPNetwork} (hp : n.prefixlen < ipWidth n.version) :
    (lowerHalf n).numAddresses = 2 ^ (ipWidth n.version - n.prefixlen - 1) ∧
    (upperHalf n).numAddresses = 2 ^ (ipWidth n.version - n.prefixlen - 1) ∧
    n.numAddresses = 2 * 2 ^ (ipWidth n.version - n.prefixlen - 1) := by
  simp only [IPNetwork.numAddresses, lowerHalf, upperHalf]
  rw [show ipWidth n.version - (n.prefixlen + 1) = ipWidth n.version - n.prefixlen - 1 from by
    omega]
  refine ⟨rfl, rfl, ?_⟩
  conv_rhs => rw [← pow_succ']
  congr 1
  omega

/-- The lower half of a valid splittable network is valid. -/
lemma valid_lowerHalf {n : IPNetwork} (hv : validNet n)
    (hp : n.prefixlen < ipWidth n.version) : validNet (lowerHalf n) := by
  obtain ⟨hver, hple, hbase, hmod⟩ := hv
  obtain ⟨h1, -, h3⟩ := half_facts hp
  refine ⟨hver, by simpa [lowerHalf] using hp, by simpa [lowerHalf] using hbase, ?_⟩
  rw [show (lowerHalf n).base = n.base from rfl, h1]
  have hdvd : 2 ^ (ipWidth n.version - n.prefixlen - 1) ∣ n.base := by
    have hd := Nat.dvd_of_mod_eq_zero hmod
    rw [IPNetwork.numAddresses] at hd
    exact dvd_trans (pow_dvd_pow 2 (by omega)) hd
  obtain ⟨k, hk⟩ := hdvd
  rw [hk]
  exact Nat.mul_mod_right _ _

/-- The upper half of a valid splittable network is valid. -/
lemma valid_upperHalf {n : IPNetwork} (hv : validNet n)
    (hp : n.prefixlen < ipWidth n.version) : validNet (upperHalf n) := by
  obtain ⟨hver, hple, hbase, hmod⟩ := hv
  obtain ⟨-, h2, h3⟩ := half_facts hp
  have hdvd : 2 ^ (ipWidth n.version - n.prefixlen - 1) ∣ n.base := by
    have hd := Nat.dvd_of_mod_eq_zero hmod
    rw [IPNetwork.numAddresses] at hd
    exact dvd_trans (pow_dvd_pow 2 (by omega)) hd
  have hlt : n.base + n.numAddresses ≤ 2 ^ ipWidth n.version :=
    valid_base_add_num ⟨hver, hple, hbase, hmod⟩
  have hhpos : 0 < 2 ^ (ipWidth n.version - n.prefixlen - 1) := pow_pos (by norm_num) _
  refine ⟨hver, by simp only [upperHalf]; omega, ?_, ?_⟩
  · show n.base + 2 ^ (ipWidth n.version - n.prefixlen - 1) < 2 ^ ipWidth n.version
    omega
  · rw [h2]
    show (n.base + 2 ^ (ipWidth n.version - n.prefixlen - 1)) %
      2 ^ (ipWidth n.version - n.prefixlen - 1) = 0
    obtain ⟨k, hk⟩ := hdvd
    rw [hk, ← Nat.mul_succ]
    exact Nat.mul_mod_right _ _

/-- The two halves partition the parent's address range. -/
lemma half_partition {n : IPNetwork} (hp : n.prefixlen < ipWidth n.version) (x : Nat) :
    n.containsNat x ↔ (lowerHalf n).containsNat x ∨ (upperHalf n).containsNat x := by
  obtain ⟨h1, h2, h3⟩ := half_facts hp
  unfold IPNetwork.containsNat
  rw [h1, h2, h3]
  simp only [lowerHalf, upperHalf]
  omega

/-- The two halves are disjoint. -/
lemma halves_disjoint {n : IPNetwork} (hp : n.prefixlen < ipWidth n.version) :
    netDisjoint (lowerHalf n) (upperHalf n) := by
  obtain ⟨h1, h2, h3⟩ := half_facts hp
  unfold netDisjoint
  rw [h1, h2]
  simp only [lowerHalf, upperHalf]
  omega

/-- The lower half is contained in the parent. -/
lemma netSub_lowerHalf {n : IPNetwork} (hp : n.prefixlen < ipWidth n.version) :
    netSub (lowerHalf n) n := by
  obtain ⟨h1, -, h3⟩ := half_facts hp
  unfold netSub
  rw [h1, h3]
  simp only [lowerHalf]
  omega

/-- The upper half is contained in the parent. -/
lemma netSub_upperHalf {n : IPNetwork} (hp : n.prefixlen < ipWidth n.version) :
    netSub (upperHalf n) n := by
  obtain ⟨-, h2, h3⟩ := half_facts hp
  unfold netSub
  rw [h2, h3]
  simp only [upperHalf]
  omega

/-- Range inclusion is transitive. -/
lemma netSub_trans {a b c : IPNetwork} (h1 : netSub a b) (h2 : netSub b c) :
    netSub a c := by
  unfold netSub at *
  omega

/-- Disjointness is symmetric. -/
lemma netDisjoint_symm {a b : IPNetwork} (h : netDisjoint a b) : netDisjoint b a := by
  unfold netDisjoint at *
  omega

/-- A subset of a network disjoint from `c` is disjoint from `c`. -/
lemma netDisjoint_of_sub {a b c : IPNetwork} (hs : netSub a b) (hd : netDisjoint b c) :
    netDisjoint a c := by
  have := numAddresses_pos a
  unfold netSub netDisjoint at *
  omega

/-- Membership is monotone along range inclusion. -/
lemma containsNat_mono {a b : IPNetwork} {x : Nat} (hs : netSub a b)
    (hx : a.containsNat x) : b.containsNat x := by
  unfold netSub at hs
  unfold IPNetwork.containsNat at *
  omega

/-- Disjoint networks share no address. -/
lemma not_containsNat_of_disjoint {a b : IPNetwork} {x : Nat} (hd : netDisjoint a b)
    (hx : a.containsNat x) : ¬ b.containsNat x := by
  unfold netDisjoint at hd
  unfold IPNetwork.containsNat at *
  omega

/-- A strict sub-network has a strictly longer prefix. -/
lemma prefix_lt_of_ssub {other self : IPNetwork} (hvo : validNet other)
    (hvs : validNet self) (hver : other.version = self.version)
    (hsub : netSub other self) (hne : other ≠ self) :
    self.prefixlen < other.prefixlen := by
  have hnum : other.numAddresses ≤ self.numAddresses := by
    have := numAddresses_pos other
    unfold netSub at hsub
    omega
  have hexp : ipWidth other.version - other.prefixlen ≤
      ipWidth self.version - self.prefixlen := by
    have := (Nat.pow_le_pow_iff_right (by norm_num : 1 < 2)).mp hnum
    exact this
  have hpo := hvo.2.1
  have hps := hvs.2.1
  rw [hver] at hpo hexp
  rcases Nat.lt_or_ge self.prefixlen other.prefixlen with h | h
  · exact h
  · exfalso
    have hpeq : other.prefixlen = self.prefixlen := by omega
    have hnumeq : other.numAddresses = self.numAddresses := by
      unfold IPNetwork.numAddresses
      rw [hver, hpeq]
    have hbase : other.base = self.base := by
      unfold netSub at hsub
      omega
    exact hne (by
      cases other
      cases self
      simp_all)

/-- A strict sub-network of a valid network lies entirely in exactly one
of its halves. -/
lemma half_split {self other : IPNetwork} (hvs : validNet self) (hvo : validNet other)
    (hver : other.version = self.version) (hsub : netSub other self)
    (hne : other ≠ self) :
    (netSub other (lowerHalf self) ∧ ¬ netSub other (upperHalf self)) ∨
      (¬ netSub other (lowerHalf self) ∧ netSub other (upperHalf self)) := by
  have hplt := prefix_lt_of_ssub hvo hvs hver hsub hne
  have hpw : self.prefixlen < ipWidth self.version := by
    have := hvo.2.1
    rw [hver] at this
    omega
  obtain ⟨h1, h2, h3⟩ := half_facts hpw
  have hno_pos := numAddresses_pos other
  have hno_dvd_h : other.numAddresses ∣ 2 ^ (ipWidth self.version - self.prefixlen - 1) := by
    unfold IPNetwork.numAddresses
    rw [hver]
    refine pow_dvd_pow 2 ?_
    have := hvo.2.1
    rw [hver] at this
    omega
  have hno_dvd_base : other.numAddresses ∣ other.base :=
    Nat.dvd_of_mod_eq_zero hvo.2.2.2
  have hno_dvd_selfbase : other.numAddresses ∣ self.base := by
    have hd := Nat.dvd_of_mod_eq_zero hvs.2.2.2
    refine dvd_trans ?_ hd
    rw [h3]
    exact dvd_trans hno_dvd_h ⟨2, by ring⟩
  have hno_dvd_mid : other.numAddresses ∣
      (self.base + 2 ^ (ipWidth self.version - self.prefixlen - 1)) :=
    dvd_add hno_dvd_selfbase hno_dvd_h
  unfold netSub at hsub
  rw [h3] at hsub
  by_cases hcase : other.base + other.numAddresses ≤
      self.base + 2 ^ (ipWidth self.version - self.prefixlen - 1)
  · left
    constructor
    · unfold netSub
      rw [h1]
      simp only [lowerHalf]
      omega
    · unfold netSub
      rw [h2]
      simp only [upperHalf]
      omega
  · right
    have hmidle : self.base + 2 ^ (ipWidth self.version - self.prefixlen - 1) ≤
        other.base := by
      by_contra hlt
      push_neg at hlt
      have hpos : 0 < self.base + 2 ^ (ipWidth self.version - self.prefixlen - 1)
          - other.base := by omega
      have := Nat.le_of_dvd hpos (Nat.dvd_sub' hno_dvd_mid hno_dvd_base)
      omega
    constructor
    · unfold netSub
      rw [h1]
      simp only [lowerHalf]
      omega
    · unfold netSub
      rw [h2]
      simp only [upperHalf]
      omega

/-- Soundness, pairwise disjointness and coverage of the splitting loop
of `address_exclude`: under the hypotheses checked by `address_exclude`
(and enough fuel) the produced fragments are valid same-version
subnetworks of `self`, pairwise disjoint and disjoint from `other`, and
cover every address of `self` outside `other`. -/
lemma excludeAux_spec :
    ∀ fuel self other, validNet self → validNet other →
      other.version = self.version → netSub other self → other ≠ self →
      other.prefixlen ≤ self.prefixlen + fuel →
      (∀ f ∈ excludeAux fuel self other,
          validNet f ∧ f.version = self.version ∧ netSub f self ∧ netDisjoint f other) ∧
      (excludeAux fuel self other).Pairwise netDisjoint ∧
      (∀ x, self.containsNat x → ¬ other.containsNat x →
          ∃ f ∈ excludeAux fuel self other, f.containsNat x) := by
  intro fuel
  induction fuel with
  | zero =>
    intro self other hvs hvo hver hsub hne hfuel
    have hplt := prefix_lt_of_ssub hvo hvs hver hsub hne
    exact absurd hfuel (by omega)
  | succ fuel ih =>
    intro self other hvs hvo hver hsub hne hfuel
    have hplt := prefix_lt_of_ssub hvo hvs hver hsub hne
    have hpw : self.prefixlen < ipWidth self.version := by
      have := hvo.2.1
      rw [hver] at this
      omega
    have hv1 := valid_lowerHalf hvs hpw
    have hv2 := valid_upperHalf hvs hpw
    have hd12 := halves_disjoint hpw
    have hsubL := netSub_lowerHalf hpw
    have hsubU := netSub_upperHalf hpw
    have hsplit := half_split hvs hvo hver hsub hne
    simp only [excludeAux]
    by_cases he1 : lowerHalf self = other
    · rw [if_pos he1]
      refine ⟨?_, List.pairwise_singleton _ _, ?_⟩
      · intro f hf
        rw [List.mem_singleton] at hf
        subst hf
        exact ⟨hv2, rfl, hsubU, netDisjoint_symm (he1 ▸ hd12)⟩
      · intro x hx hnx
        rcases (half_partition hpw x).mp hx with h | h
        · rw [he1] at h
          exact absurd h hnx
        · exact ⟨upperHalf self, List.mem_singleton_self _, h⟩
    · rw [if_neg he1]
      by_cases he2 : upperHalf self = other
      · rw [if_pos he2]
        refine ⟨?_, List.pairwise_singleton _ _, ?_⟩
        · intro f hf
          rw [List.mem_singleton] at hf
          subst hf
          exact ⟨hv1, rfl, hsubL, he2 ▸ hd12⟩
        · intro x hx hnx
          rcases (half_partition hpw x).mp hx with h | h
          · exact ⟨lowerHalf self, List.mem_singleton_self _, h⟩
          · rw [he2] at h
            exact absurd h hnx
      · rw [if_neg he2]
        by_cases hs1 : subnetOf other (lowerHalf self) = true
        · rw [if_pos hs1]
          have hsub1 : netSub other (lowerHalf self) := (subnetOf_iff _ _).mp hs1
          obtain ⟨ihA, ihP, ihC⟩ :=
            ih (lowerHalf self) other hv1 hvo
              (by rw [lowerHalf_version]; exact hver) hsub1
              (fun h => he1 h.symm)
              (by rw [lowerHalf_prefixlen]; omega)
          refine ⟨?_, ?_, ?_⟩
          · intro f hf
            rcases List.mem_cons.mp hf with rfl | hf
            · exact ⟨hv2, rfl, hsubU,
                netDisjoint_symm (netDisjoint_of_sub hsub1 hd12)⟩
            · obtain ⟨hfv, hfver, hfsub, hfdis⟩ := ihA f hf
              exact ⟨hfv, by rw [hfver, lowerHalf_version],
                netSub_trans hfsub hsubL, hfdis⟩
          · rw [List.pairwise_cons]
            refine ⟨?_, ihP⟩
            intro f hf
            obtain ⟨-, -, hfsub, -⟩ := ihA f hf
            exact netDisjoint_symm (netDisjoint_of_sub hfsub hd12)
          · intro x hx hnx
            rcases (half_partition hpw x).mp hx with h | h
            · obtain ⟨f, hf, hxf⟩ := ihC x h hnx
              exact ⟨f, List.mem_cons_of_mem _ hf, hxf⟩
            · exact ⟨upperHalf self, List.mem_cons_self _ _, h⟩
        · rw [if_neg hs1]
          by_cases hs2 : subnetOf other (upperHalf self) = true
          · rw [if_pos hs2]
            have hsub2 : netSub other (upperHalf self) := (subnetOf_iff _ _).mp hs2
            obtain ⟨ihA, ihP, ihC⟩ :=
              ih (upperHalf self) other hv2 hvo
                (by rw [upperHalf_version]; exact hver) hsub2
                (fun h => he2 h.symm)
                (by rw [upperHalf_prefixlen]; omega)
            refine ⟨?_, ?_, ?_⟩
            · intro f hf
              rcases List.mem_cons.mp hf with rfl | hf
              · exact ⟨hv1, rfl, hsubL,
                  netDisjoint_symm (netDisjoint_of_sub hsub2 (netDisjoint_symm hd12))⟩
              · obtain ⟨hfv, hfver, hfsub, hfdis⟩ := ihA f hf
                exact ⟨hfv, by rw [hfver, upperHalf_version],
                  netSub_trans hfsub hsubU, hfdis⟩
            · rw [List.pairwise_cons]
              refine ⟨?_, ihP⟩
              intro f hf
              obtain ⟨-, -, hfsub, -⟩ := ihA f hf
              exact netDisjoint_of_sub hfsub (netDisjoint_symm hd12) |> netDisjoint_symm
            · intro x hx hnx
              rcases (half_partition hpw x).mp hx with h | h
              · exact ⟨lowerHalf self, List.mem_cons_self _ _, h⟩
              · obtain ⟨f, hf, hxf⟩ := ihC x h hnx
                exact ⟨f, List.mem_cons_of_mem _ hf, hxf⟩
          · exfalso
            rcases hsplit with ⟨h, -⟩ | ⟨-, h⟩
            · exact hs1 ((subnetOf_iff _ _).mpr h)
            · exact hs2 ((subnetOf_iff _ _).mpr h)

/-! ## Entry-level semantics of `exclude_net` -/

/-- The contribution of one assignable entry to the new assignable list:
the fragments produced by `address_exclude`, or the entry itself when
`address_exclude` raises (`ValueError` kept by `exclude_net`). -/
def exclFrag (e net : IPNetwork) : List IPNetwork :=
  match address_exclude e net with
  | .ok frags => frags
  | .error _ => [e]

/-- For same-version arguments `address_exclude` can only raise
`ValueError`. -/
lemma address_exclude_error_same_version {e net : IPNetwork}
    (hv : e.version = net.version) {err : PyErr}
    (h : address_exclude e net = .error err) : err = .valueError := by
  unfold address_exclude at h
  split at h
  · exact absurd hv (by assumption)
  · split at h
    · cases h
      rfl
    · split at h
      · cases h
      · cases h

/-- With all entries of the excluded network's version, the
`exclude_net` loop never raises and produces the concatenation of the
per-entry fragment lists. -/
lemma excludeEntries_ok {entries : List IPNetwork} {net : IPNetwork}
    (hver : ∀ e ∈ entries, e.version = net.version) :
    excludeEntries entries net = .ok (entries.flatMap (fun e => exclFrag e net)) := by
  induction entries with
  | nil => rfl
  | cons e rest ih =>
    have hv := hver e (List.mem_cons_self _ _)
    have hrest := ih (fun f hf => hver f (List.mem_cons_of_mem _ hf))
    simp only [excludeEntries, List.flatMap_cons]
    cases hae : address_exclude e net with
    | ok frags =>
      rw [hrest]
      simp [exclFrag, hae]
    | error err =>
      have herr := address_exclude_error_same_version hv hae
      subst herr
      rw [hrest]
      simp [exclFrag, hae]

/-- Per-entry soundness: each fragment is a valid same-version
subnetwork of the entry. -/
lemma exclFrag_sound {e net : IPNetwork} (hve : validNet e) (hvn : validNet net)
    (hver : net.version = e.version) :
    ∀ f ∈ exclFrag e net, validNet f ∧ f.version = e.version ∧ netSub f e := by
  intro f hf
  unfold exclFrag at hf
  unfold address_exclude at hf
  rw [if_neg (by omega)] at hf
  by_cases hs : subnetOf net e
  · rw [if_neg (not_not_intro hs)] at hf
    by_cases heq : net = e
    · rw [if_pos heq] at hf
      simp at hf
    · rw [if_neg heq] at hf
      simp only at hf
      have hfuel : net.prefixlen ≤ e.prefixlen + ipWidth e.version := by
        have := hvn.2.1
        rw [hver] at this
        omega
      obtain ⟨hA, -, -⟩ :=
        excludeAux_spec (ipWidth e.version) e net hve hvn hver
          ((subnetOf_iff _ _).mp hs) heq hfuel
      obtain ⟨h1, h2, h3, -⟩ := hA f hf
      exact ⟨h1, h2, h3⟩
  · rw [if_pos hs] at hf
    rw [List.mem_singleton] at hf
    subst hf
    exact ⟨hve, rfl, ⟨le_refl _, le_refl _⟩⟩

/-- Per-entry disjointness of the produced fragments. -/
lemma exclFrag_pairwise {e net : IPNetwork} (hve : validNet e) (hvn : validNet net)
    (hver : net.version = e.version) :
    (exclFrag e net).Pairwise netDisjoint := by
  unfold exclFrag
  unfold address_exclude
  rw [if_neg (by omega)]
  by_cases hs : subnetOf net e
  · rw [if_neg (not_not_intro hs)]
    by_cases heq : net = e
    · rw [if_pos heq]
      exact List.Pairwise.nil
    · rw [if_neg heq]
      simp only
      have hfuel : net.prefixlen ≤ e.prefixlen + ipWidth e.version := by
        have := hvn.2.1
        rw [hver] at this
        omega
      obtain ⟨-, hP, -⟩ :=
        excludeAux_spec (ipWidth e.version) e net hve hvn hver
          ((subnetOf_iff _ _).mp hs) heq hfuel
      exact hP
  · rw [if_pos hs]
    exact List.pairwise_singleton _ _

/-- Per-entry exactness: an address survives in some fragment of the
entry exactly when it is in the entry and not removed; an address is
removed exactly when the excluded network is a subnetwork of the entry
and contains the address (this is where entries strictly inside the
excluded network are kept whole). -/
lemma exclFrag_exact {e net : IPNetwork} (hve : validNet e) (hvn : validNet net)
    (hver : net.version = e.version) (x : Nat) :
    (∃ f ∈ exclFrag e net, f.containsNat x) ↔
      (e.containsNat x ∧ ¬ (netSub net e ∧ net.containsNat x)) := by
  unfold exclFrag
  unfold address_exclude
  rw [if_neg (by omega)]
  by_cases hs : subnetOf net e
  · have hsub : netSub net e := (subnetOf_iff _ _).mp hs
    rw [if_neg (not_not_intro hs)]
    by_cases heq : net = e
    · rw [if_pos heq]
      subst heq
      simp only [List.not_mem_nil, false_and, exists_false, false_iff]
      intro ⟨hx, hn⟩
      exact hn ⟨hsub, hx⟩
    · rw [if_neg heq]
      simp only
      have hfuel : net.prefixlen ≤ e.prefixlen + ipWidth e.version := by
        have := hvn.2.1
        rw [hver] at this
        omega
      obtain ⟨hA, -, hC⟩ :=
        excludeAux_spec (ipWidth e.version) e net hve hvn hver hsub heq hfuel
      constructor
      · intro ⟨f, hf, hxf⟩
        obtain ⟨-, -, hfsub, hfdis⟩ := hA f hf
        exact ⟨containsNat_mono hfsub hxf,
          fun hc => not_containsNat_of_disjoint (netDisjoint_symm hfdis) hc.2 hxf⟩
      · intro ⟨hx, hn⟩
        exact hC x hx (fun hxn => hn ⟨hsub, hxn⟩)
  · rw [if_pos hs]
    have hnsub : ¬ netSub net e := fun h => hs ((subnetOf_iff _ _).mpr h)
    constructor
    · intro ⟨f, hf, hxf⟩
      rw [List.mem_singleton] at hf
      subst hf
      exact ⟨hxf, fun hc => hnsub hc.1⟩
    · intro hc
      exact ⟨e, List.mem_singleton_self _, hc.1⟩

/-! ## State-level invariants of the allocator -/

/-- An address value is still assignable in the state. -/
def assignableMem (s : AddressAssigner) (x : Nat) : Prop :=
  ∃ e ∈ s.assignable, e.containsNat x

/-- Invariant of every reachable allocator state: valid root, valid
same-version assignable entries inside the root, pairwise disjoint. -/
def AssignerInv (s : AddressAssigner) : Prop :=
  validNet s.root_network ∧
    (∀ e ∈ s.assignable,
        validNet e ∧ e.version = s.root_network.version ∧ netSub e s.root_network) ∧
    s.assignable.Pairwise netDisjoint

lemma sortNets_perm (l : List IPNetwork) : (sortNets l).Perm l :=
  List.perm_insertionSort _ _

lemma sortNets_mem {l : List IPNetwork} {e : IPNetwork} :
    e ∈ sortNets l ↔ e ∈ l :=
  (sortNets_perm l).mem_iff

lemma sortNets_pairwise {l : List IPNetwork}
    (h : l.Pairwise netDisjoint) : (sortNets l).Pairwise netDisjoint :=
  ((sortNets_perm l).pairwise_iff fun hd => netDisjoint_symm hd).mpr h

/-- Pairwise disjointness of the concatenated fragment lists produced by
one `exclude_net` pass. -/
lemma flatMap_exclFrag_pairwise {entries : List IPNetwork} {net : IPNetwork}
    (hvn : validNet net)
    (hent : ∀ e ∈ entries, validNet e ∧ e.version = net.version)
    (hpw : entries.Pairwise netDisjoint) :
    (entries.flatMap (fun e => exclFrag e net)).Pairwise netDisjoint := by
  induction entries with
  | nil => exact List.Pairwise.nil
  | cons e rest ih =>
    rw [List.flatMap_cons, List.pairwise_append]
    obtain ⟨hve, hvev⟩ := hent e (List.mem_cons_self _ _)
    rw [List.pairwise_cons] at hpw
    refine ⟨exclFrag_pairwise hve hvn hvev.symm, ?_, ?_⟩
    · exact ih (fun f hf => hent f (List.mem_cons_of_mem _ hf)) hpw.2
    · intro a ha b hb
      rw [List.mem_flatMap] at hb
      obtain ⟨e2, he2, hb2⟩ := hb
      obtain ⟨hve2, hve2v⟩ := hent e2 (List.mem_cons_of_mem _ he2)
      obtain ⟨-, -, hasub⟩ := exclFrag_sound hve hvn hvev.symm a ha
      obtain ⟨-, -, hbsub⟩ := exclFrag_sound hve2 hvn hve2v.symm b hb2
      exact netDisjoint_of_sub hasub
        (netDisjoint_symm (netDisjoint_of_sub hbsub (netDisjoint_symm (hpw.1 e2 he2))))

/-- What `exclude_net` does when it succeeds: the invariant and the
cursor are preserved, and an address is assignable afterwards exactly
when it was assignable in some entry not stripped by this exclusion
(an entry loses addresses only when the excluded network is one of its
subnetworks). -/
lemma exclude_net_ok_spec {s : AddressAssigner} {net : IPNetwork} {s2 : AddressAssigner}
    (inv : AssignerInv s) (hvn : validNet net)
    (h : exclude_net s net = .ok s2) :
    AssignerInv s2 ∧ s2.root_network = s.root_network ∧
      s2.net_index = s.net_index ∧ s2.addr_index = s.addr_index ∧
      (∀ x, assignableMem s2 x ↔
        ∃ e ∈ s.assignable, e.containsNat x ∧ ¬ (netSub net e ∧ net.containsNat x)) := by
  obtain ⟨hvr, hent, hpw⟩ := inv
  by_cases hver : net.version = s.root_network.version
  · have hallver : ∀ e ∈ s.assignable, e.version = net.version := by
      intro e he
      rw [(hent e he).2.1, hver]
    have hok := excludeEntries_ok hallver
    unfold exclude_net at h
    rw [hok] at h
    cases h
    refine ⟨⟨hvr, ?_, ?_⟩, rfl, rfl, rfl, ?_⟩
    · intro f hf
      simp only [sortNets_mem, List.mem_flatMap] at hf
      obtain ⟨e, he, hfe⟩ := hf
      obtain ⟨hve, hvev, hsube⟩ := hent e he
      obtain ⟨h1, h2, h3⟩ := exclFrag_sound hve hvn (hvev.trans hver.symm).symm f hfe
      exact ⟨h1, by rw [h2, hvev], netSub_trans h3 hsube⟩
    · exact sortNets_pairwise
        (flatMap_exclFrag_pairwise hvn
          (fun e he => ⟨(hent e he).1, hallver e he⟩) hpw)
    · intro x
      unfold assignableMem
      simp only [sortNets_mem, List.mem_flatMap]
      constructor
      · intro ⟨f, hf, hxf⟩
        obtain ⟨e, he, hfe⟩ := hf
        obtain ⟨hve, hvev, -⟩ := hent e he
        have := (exclFrag_exact hve hvn (hvev.trans hver.symm).symm x).mp ⟨f, hfe, hxf⟩
        exact ⟨e, he, this⟩
      · intro ⟨e, he, hx⟩
        obtain ⟨hve, hvev, -⟩ := hent e he
        obtain ⟨f, hfe, hxf⟩ :=
          (exclFrag_exact hve hvn (hvev.trans hver.symm).symm x).mpr hx
        exact ⟨f, ⟨e, he, hfe⟩, hxf⟩
  · cases hA : s.assignable with
    | nil =>
      unfold exclude_net at h
      rw [hA] at h
      simp only [excludeEntries] at h
      cases h
      refine ⟨⟨hvr, ?_, ?_⟩, rfl, rfl, rfl, ?_⟩
      · intro f hf
        simp [sortNets, List.insertionSort] at hf
      · simp [sortNets, List.insertionSort]
      · intro x
        unfold assignableMem
        simp only [hA, List.not_mem_nil, false_and, exists_false, iff_false]
        intro ⟨f, hf, hfx⟩
        simp [sortNets, List.insertionSort] at hf
    | cons e rest =>
      exfalso
      have hvev := (hent e (by rw [hA]; exact List.mem_cons_self _ _)).2.1
      unfold exclude_net at h
      rw [hA] at h
      simp only [excludeEntries] at h
      rw [show address_exclude e net = .error .typeError from ?_] at h
      · cases h
      · unfold address_exclude
        rw [if_pos]
        rw [hvev]
        exact fun hc => hver hc.symm

/-- With an excluded network of the root's version, `exclude_net` always
succeeds. -/
lemma exclude_net_total {s : AddressAssigner} {net : IPNetwork}
    (inv : AssignerInv s) (hver : net.version = s.root_network.version) :
    ∃ s2, exclude_net s net = .ok s2 := by
  have hallver : ∀ e ∈ s.assignable, e.version = net.version := by
    intro e he
    rw [(inv.2.1 e he).2.1, hver]
  have hok := excludeEntries_ok hallver
  exact ⟨_, by unfold exclude_net; rw [hok]⟩

/-- The host network of a valid address is a valid network. -/
lemma validNet_hostNet {a : IPAddress} (hva : validAddr a) : validNet (hostNet a) := by
  refine ⟨hva.1, le_refl _, hva.2, ?_⟩
  simp [hostNet, IPNetwork.numAddresses, Nat.mod_one]

lemma hostNet_num (a : IPAddress) : (hostNet a).numAddresses = 1 := by
  simp [hostNet, IPNetwork.numAddresses]

/-- The host network contains exactly the address itself. -/
lemma hostNet_contains (a : IPAddress) (x : Nat) :
    (hostNet a).containsNat x ↔ x = a.value := by
  unfold IPNetwork.containsNat
  rw [hostNet_num]
  show (hostNet a).base ≤ x ∧ x < (hostNet a).base + 1 ↔ x = a.value
  simp only [hostNet]
  omega

/-- The host network is a subnetwork of `e` exactly when `e` contains the
address. -/
lemma netSub_hostNet_iff (a : IPAddress) (e : IPNetwork) :
    netSub (hostNet a) e ↔ e.containsNat a.value := by
  unfold netSub IPNetwork.containsNat
  rw [hostNet_num]
  show e.base ≤ (hostNet a).base ∧ (hostNet a).base + 1 ≤ _ ↔ _
  simp only [hostNet]
  omega

/-- What `exclude_address` does: it always succeeds, preserves the
invariant, root and cursor, and removes exactly the excluded address
value (and nothing at all when the address family differs from the
root's). -/
lemma exclude_address_spec {s : AddressAssigner} {a : IPAddress}
    (inv : AssignerInv s) (hva : validAddr a) :
    ∃ s2, exclude_address s a = .ok s2 ∧ AssignerInv s2 ∧
      s2.root_network = s.root_network ∧ s2.net_index = s.net_index ∧
      s2.addr_index = s.addr_index ∧
      (∀ x, assignableMem s2 x ↔
        assignableMem s x ∧ ¬ (a.version = s.root_network.version ∧ x = a.value)) := by
  by_cases hver : a.version = s.root_network.version
  · obtain ⟨s2, hs2⟩ := exclude_net_total inv (show (hostNet a).version = _ from hver)
    obtain ⟨inv2, hroot, hni, hai, hmem⟩ :=
      exclude_net_ok_spec inv (validNet_hostNet hva) hs2
    refine ⟨s2, ?_, inv2, hroot, hni, hai, ?_⟩
    · unfold exclude_address
      rw [if_neg (not_not_intro hver)]
      exact hs2
    · intro x
      rw [hmem x]
      constructor
      · intro ⟨e, he, hx, hn⟩
        refine ⟨⟨e, he, hx⟩, ?_⟩
        intro ⟨hv2, hxa⟩
        subst hxa
        exact hn ⟨(netSub_hostNet_iff a e).mpr hx, (hostNet_contains a _).mpr rfl⟩
      · intro ⟨⟨e, he, hx⟩, hn⟩
        refine ⟨e, he, hx, ?_⟩
        intro ⟨hsubh, hconh⟩
        have hxa := (hostNet_contains a x).mp hconh
        exact hn ⟨hver, hxa⟩
  · refine ⟨s, ?_, inv, rfl, rfl, rfl, ?_⟩
    · unfold exclude_address
      rw [if_pos hver]
    · intro x
      simp [hver]

/-- Full characterisation of the constructor: it always succeeds, the
invariant holds, the cursor starts at the origin and exactly the root's
addresses other than the network and the broadcast (last) address are
assignable — for both address families. -/
lemma mkAssigner_spec {root : IPNetwork} (hv : validNet root) :
    ∃ s, mkAssigner root = .ok s ∧ AssignerInv s ∧ s.root_network = root ∧
      s.net_index = 0 ∧ s.addr_index = 0 ∧
      (∀ x, assignableMem s x ↔
        root.containsNat x ∧ x ≠ root.base ∧
          x ≠ root.base + root.numAddresses - 1) := by
  have hinv0 : AssignerInv ⟨root, [root], 0, 0⟩ := by
    refine ⟨hv, ?_, List.pairwise_singleton _ _⟩
    intro e he
    rw [List.mem_singleton] at he
    subst he
    exact ⟨hv, rfl, le_refl _, le_refl _⟩
  have hva1 : validAddr root.networkAddress := ⟨hv.1, hv.2.2.1⟩
  have hva2 : validAddr root.broadcastAddress := by
    refine ⟨hv.1, ?_⟩
    show root.base + root.numAddresses - 1 < 2 ^ ipWidth root.version
    have h1 := valid_base_add_num hv
    have h2 := numAddresses_pos root
    omega
  obtain ⟨s1, h1, inv1, hroot1, hni1, hai1, hmem1⟩ := exclude_address_spec hinv0 hva1
  obtain ⟨s2, h2, inv2, hroot2, hni2, hai2, hmem2⟩ := exclude_address_spec inv1 hva2
  refine ⟨s2, ?_, inv2, by rw [hroot2, hroot1], by rw [hni2, hni1],
    by rw [hai2, hai1], ?_⟩
  · simp only [mkAssigner, h1, h2]
  · intro x
    rw [hmem2 x, hmem1 x, hroot1]
    have hmem0 : assignableMem ⟨root, [root], 0, 0⟩ x ↔ root.containsNat x := by
      unfold assignableMem
      simp
    rw [hmem0]
    constructor
    · intro ⟨⟨hx, hn1⟩, hn2⟩
      exact ⟨hx, fun h => hn1 ⟨rfl, h⟩, fun h => hn2 ⟨rfl, h⟩⟩
    · intro ⟨hx, h1x, h2x⟩
      exact ⟨⟨hx, fun hc => h1x hc.2⟩, fun hc => h2x hc.2⟩

/-- C9 (amended): constructing an allocator on a valid root network of
either address family initializes the assignable pool to the root
network minus exactly the root's network address and the root's
broadcast (last) address — the broadcast address is excluded for IPv6
roots as well. -/
theorem c9_amended_constructor_exclusions (root : IPNetwork) (hv : validNet root) :
    ∃ s, mkAssigner root = .ok s ∧ s.root_network = root ∧
      (∀ x, assignableMem s x ↔
        root.containsNat x ∧ x ≠ root.networkAddress.value ∧
          x ≠ root.broadcastAddress.value) := by
  obtain ⟨s, hs, hinv, hroot, hni, hai, hmem⟩ := mkAssigner_spec hv
  exact ⟨s, hs, hroot, hmem⟩

/-- Witness for the amended C9 at the concrete IPv6 root fd00::/126. -/
theorem c9_amended_witness :
    validNet sampleV6Root ∧
      ∃ s, mkAssigner sampleV6Root = .ok s ∧ s.root_network = sampleV6Root ∧
        (∀ x, assignableMem s x ↔
          sampleV6Root.containsNat x ∧ x ≠ sampleV6Root.networkAddress.value ∧
            x ≠ sampleV6Root.broadcastAddress.value) :=
  ⟨by decide, c9_amended_constructor_exclusions _ (by decide)⟩

/-! ## The assignment stream -/

/-- All addresses of a network, in ascending order (the order Python
network indexing enumerates). -/
def IPNetwork.addrList (n : IPNetwork) : List IPAddress :=
  (List.range n.numAddresses).map (fun i => ⟨n.version, n.base + i⟩)

/-- The sequence of addresses the cursor will still deliver from the
current state. -/
def streamFrom (s : AddressAssigner) : List IPAddress :=
  match s.assignable[s.net_index]? with
  | none => []
  | some e => (e.addrList.drop s.addr_index) ++
      ((s.assignable.drop (s.net_index + 1)).flatMap IPNetwork.addrList)

/-- Cursor well-formedness: the address index never exceeds the size of
the current entry (which `assign` maintains). -/
def cursorWF (s : AddressAssigner) : Prop :=
  ∀ e, s.assignable[s.net_index]? = some e → s.addr_index ≤ e.numAddresses

lemma addrList_length (n : IPNetwork) : n.addrList.length = n.numAddresses := by
  simp [IPNetwork.addrList]

lemma addrList_drop_cons {n : IPNetwork} {i : Nat} (h : i < n.numAddresses) :
    n.addrList.drop i = ⟨n.version, n.base + i⟩ :: n.addrList.drop (i + 1) := by
  have hlen : i < n.addrList.length := by rw [addrList_length]; exact h
  rw [List.drop_eq_getElem_cons hlen]
  congr 1
  simp [IPNetwork.addrList]


lemma addrList_mem {e : IPNetwork} {a : IPAddress} :
    a ∈ e.addrList ↔ a.version = e.version ∧ e.containsNat a.value := by
  unfold IPNetwork.addrList
  rw [List.mem_map]
  constructor
  · intro ⟨i, hi, hia⟩
    rw [List.mem_range] at hi
    have hv : a.version = e.version := by rw [← hia]
    have hx : a.value = e.base + i := by rw [← hia]
    refine ⟨hv, ?_⟩
    unfold IPNetwork.containsNat
    omega
  · intro ⟨hv, hc⟩
    unfold IPNetwork.containsNat at hc
    refine ⟨a.value - e.base, ?_, ?_⟩
    · rw [List.mem_range]
      omega
    · show (⟨e.version, e.base + (a.value - e.base)⟩ : IPAddress) = a
      have h1 : e.base + (a.value - e.base) = a.value := by omega
      rw [h1, ← hv]

lemma addrList_nodup (e : IPNetwork) : e.addrList.Nodup := by
  refine List.Nodup.map ?_ (List.nodup_range _)
  intro i j hij
  simp only [IPAddress.mk.injEq] at hij
  omega

lemma streamFrom_eq_none {s : AddressAssigner}
    (h : s.assignable[s.net_index]? = none) : streamFrom s = [] := by
  unfold streamFrom
  rw [h]

lemma streamFrom_eq_some {s : AddressAssigner} {e : IPNetwork}
    (h : s.assignable[s.net_index]? = some e) :
    streamFrom s = (e.addrList.drop s.addr_index) ++
      ((s.assignable.drop (s.net_index + 1)).flatMap IPNetwork.addrList) := by
  unfold streamFrom
  rw [h]

/-- One step of `assign`, related to the stream view. -/
lemma assign_step {s : AddressAssigner} (hwf : cursorWF s) :
    (streamFrom s = [] ∧ assign s = .error (.assignmentException s.root_network)) ∨
    (∃ a rest s2, streamFrom s = a :: rest ∧ assign s = .ok (a, s2) ∧
      s2.assignable = s.assignable ∧ s2.root_network = s.root_network ∧
      cursorWF s2 ∧ streamFrom s2 = rest) := by
  cases h0 : s.assignable[s.net_index]? with
  | none =>
    left
    have hlen : s.assignable.length ≤ s.net_index := by
      by_contra hlt
      push_neg at hlt
      rw [List.getElem?_eq_getElem hlt] at h0
      cases h0
    have h1 : s.assignable[s.net_index + 1]? = none :=
      List.getElem?_eq_none (by omega)
    refine ⟨streamFrom_eq_none h0, ?_⟩
    unfold assign tryIndex
    rw [h0, h1]
  | some e =>
    by_cases hai : s.addr_index < e.numAddresses
    · right
      refine ⟨⟨e.version, e.base + s.addr_index⟩,
        e.addrList.drop (s.addr_index + 1) ++
          ((s.assignable.drop (s.net_index + 1)).flatMap IPNetwork.addrList),
        { s with addr_index := s.addr_index + 1 }, ?_, ?_, rfl, rfl, ?_, ?_⟩
      · rw [streamFrom_eq_some h0, addrList_drop_cons hai]
        rfl
      · unfold assign tryIndex netGetAddr
        rw [h0]
        simp only [if_pos hai]
      · intro e2 he2
        have he2e : e2 = e := by
          have : s.assignable[s.net_index]? = some e2 := he2
          rw [h0] at this
          cases this
          rfl
        subst he2e
        show s.addr_index + 1 ≤ e2.numAddresses
        omega
      · exact streamFrom_eq_some (show s.assignable[s.net_index]? = some e from h0)
    · have hai2 : s.addr_index = e.numAddresses := by
        have := hwf e h0
        omega
      have hdrop : e.addrList.drop s.addr_index = [] := by
        apply List.drop_eq_nil_of_le
        rw [addrList_length]
        omega
      have htry1 : tryIndex s s.net_index s.addr_index = none := by
        unfold tryIndex netGetAddr
        rw [h0]
        simp only [if_neg hai]
      cases h1 : s.assignable[s.net_index + 1]? with
      | none =>
        left
        have hlen : s.assignable.length ≤ s.net_index + 1 := by
          by_contra hlt
          push_neg at hlt
          rw [List.getElem?_eq_getElem hlt] at h1
          cases h1
        refine ⟨?_, ?_⟩
        · rw [streamFrom_eq_some h0, hdrop, List.drop_eq_nil_of_le hlen]
          rfl
        · unfold assign
          rw [htry1]
          unfold tryIndex
          rw [h1]
      | some e2 =>
        right
        have hlt1 : s.net_index + 1 < s.assignable.length := by
          by_contra hge
          push_neg at hge
          rw [List.getElem?_eq_none hge] at h1
          cases h1
        have he2pos : 0 < e2.numAddresses := numAddresses_pos e2
        refine ⟨⟨e2.version, e2.base + 0⟩,
          e2.addrList.drop 1 ++
            ((s.assignable.drop (s.net_index + 2)).flatMap IPNetwork.addrList),
          { s with net_index := s.net_index + 1, addr_index := 1 }, ?_, ?_, rfl, rfl, ?_, ?_⟩
        · rw [streamFrom_eq_some h0, hdrop]
          have hdrop1 : s.assignable.drop (s.net_index + 1) =
              e2 :: s.assignable.drop (s.net_index + 2) := by
            rw [List.drop_eq_getElem_cons hlt1]
            congr 1
            rw [List.getElem?_eq_getElem hlt1] at h1
            cases h1
            rfl
          rw [hdrop1, List.flatMap_cons, List.nil_append]
          have hhd := addrList_drop_cons (n := e2) (i := 0) he2pos
          rw [List.drop_zero] at hhd
          rw [hhd]
          simp
        · unfold assign
          rw [htry1]
          unfold tryIndex netGetAddr
          rw [h1]
          simp only [if_pos he2pos]
        · intro e3 he3
          have he3e : e3 = e2 := by
            have : s.assignable[s.net_index + 1]? = some e3 := he3
            rw [h1] at this
            cases this
            rfl
          subst he3e
          show 1 ≤ e3.numAddresses
          omega
        · exact streamFrom_eq_some
            (show s.assignable[s.net_index + 1]? = some e2 from h1)

/-- `n` successful `assign()` calls return exactly the first `n` elements
of the stream and do not change the assignable list. -/
lemma assignN_spec :
    ∀ (N : Nat) (s : AddressAssigner), cursorWF s →
      ∀ rs s2, assignN s N = .ok (rs, s2) →
        rs = (streamFrom s).take N ∧ N ≤ (streamFrom s).length ∧
          s2.assignable = s.assignable := by
  intro N
  induction N with
  | zero =>
    intro s hwf rs s2 h
    simp only [assignN] at h
    cases h
    exact ⟨rfl, Nat.zero_le _, rfl⟩
  | succ N ih =>
    intro s hwf rs s2 h
    simp only [assignN] at h
    rcases assign_step hwf with ⟨hstream, herr⟩ | ⟨a, rest, s1, hstream, hok, hasg, hroot, hwf1, hstream1⟩
    · rw [herr] at h
      cases h
    · rw [hok] at h
      have h2 : (match assignN s1 N with
        | Except.ok (rs1, s1f) => Except.ok (a :: rs1, s1f)
        | Except.error err => (Except.error err : Except PyErr (List IPAddress × AddressAssigner))) =
          Except.ok (rs, s2) := h
      cases hrec : assignN s1 N with
      | error err =>
        rw [hrec] at h2
        cases h2
      | ok pr =>
        obtain ⟨rs1, s1f⟩ := pr
        rw [hrec] at h2
        cases h2
        obtain ⟨hr1, hr2, hr3⟩ := ih s1 hwf1 rs1 s2 hrec
        rw [hstream1] at hr1 hr2
        refine ⟨?_, ?_, by rw [hr3, hasg]⟩
        · rw [hstream, hr1]
          rfl
        · rw [hstream]
          simp only [List.length_cons]
          omega

/-- From a fresh cursor the stream is the concatenation of the address
lists of all assignable entries. -/
lemma streamFrom_fresh {s : AddressAssigner} (h0 : s.net_index = 0)
    (h1 : s.addr_index = 0) :
    streamFrom s = s.assignable.flatMap IPNetwork.addrList := by
  cases hA : s.assignable with
  | nil =>
    have hnone := streamFrom_eq_none (s := s) (by rw [h0, hA]; simp)
    rw [hnone]
    rfl
  | cons e rest =>
    rw [streamFrom_eq_some (e := e) (by rw [h0, hA]; simp), hA, h0, h1]
    simp

/-- A fresh cursor is well-formed. -/
lemma cursorWF_fresh {s : AddressAssigner} (h1 : s.addr_index = 0) : cursorWF s := by
  intro e he
  rw [h1]
  exact Nat.zero_le _

/-- Pairwise disjoint entries produce a duplicate-free address stream. -/
lemma flatMap_addrList_nodup {l : List IPNetwork} (hpw : l.Pairwise netDisjoint) :
    (l.flatMap IPNetwork.addrList).Nodup := by
  rw [List.nodup_flatMap]
  refine ⟨fun e he => addrList_nodup e, ?_⟩
  refine hpw.imp ?_
  intro e1 e2 hd
  intro a ha1 ha2
  rw [addrList_mem] at ha1 ha2
  exact not_containsNat_of_disjoint hd ha1.2 ha2.2

/-- Validity of an exclusion request, which Python guarantees by
construction of its `ipaddress` objects. -/
def validExclReq : ExclReq → Prop
  | .addr a => validAddr a
  | .net n => validNet n

instance (r : ExclReq) : Decidable (validExclReq r) := by
  cases r <;> (unfold validExclReq; infer_instance)

/-- Applying a list of exclusion requests preserves the invariant, the
root and the cursor, only shrinks the assignable address set, and
removes every excluded root-family address. -/
lemma excludeAll_spec :
    ∀ (excls : List ExclReq) (s s2 : AddressAssigner), AssignerInv s →
      (∀ r ∈ excls, validExclReq r) → excludeAll s excls = .ok s2 →
      AssignerInv s2 ∧ s2.root_network = s.root_network ∧
        s2.net_index = s.net_index ∧ s2.addr_index = s.addr_index ∧
        (∀ x, assignableMem s2 x → assignableMem s x) ∧
        (∀ b : IPAddress, ExclReq.addr b ∈ excls →
          b.version = s.root_network.version → ¬ assignableMem s2 b.value) := by
  intro excls
  induction excls with
  | nil =>
    intro s s2 inv hv h
    simp only [excludeAll] at h
    cases h
    refine ⟨inv, rfl, rfl, rfl, fun x hx => hx, ?_⟩
    intro b hb
    cases hb
  | cons r rest ih =>
    intro s s2 inv hv h
    simp only [excludeAll] at h
    cases hap : applyExclusion s r with
    | error err =>
      rw [hap] at h
      cases h
    | ok s1 =>
      rw [hap] at h
      have hvr := hv r (List.mem_cons_self _ _)
      have hvrest : ∀ q ∈ rest, validExclReq q := fun q hq => hv q (List.mem_cons_of_mem _ hq)
      -- step facts for this one exclusion
      have hstep : AssignerInv s1 ∧ s1.root_network = s.root_network ∧
          s1.net_index = s.net_index ∧ s1.addr_index = s.addr_index ∧
          (∀ x, assignableMem s1 x → assignableMem s x) ∧
          (∀ b : IPAddress, r = ExclReq.addr b →
            b.version = s.root_network.version → ¬ assignableMem s1 b.value) := by
        cases r with
        | addr a =>
          obtain ⟨s1x, hs1x, inv1, hroot, hni, hai, hmem⟩ :=
            exclude_address_spec inv (hvr : validAddr a)
          have hs1 : s1x = s1 := by
            have hap2 : exclude_address s a = .ok s1 := hap
            rw [hs1x] at hap2
            cases hap2
            rfl
          subst hs1
          refine ⟨inv1, hroot, hni, hai, fun x hx => ((hmem x).mp hx).1, ?_⟩
          intro b hb hbv hbm
          cases hb
          exact (((hmem _).mp hbm).2) ⟨hbv, rfl⟩
        | net n =>
          have hap2 : exclude_net s n = .ok s1 := hap
          obtain ⟨inv1, hroot, hni, hai, hmem⟩ :=
            exclude_net_ok_spec inv (hvr : validNet n) hap2
          refine ⟨inv1, hroot, hni, hai, ?_, ?_⟩
          · intro x hx
            obtain ⟨e, he, hxe, hn⟩ := (hmem x).mp hx
            exact ⟨e, he, hxe⟩
          · intro b hb
            cases hb
      obtain ⟨inv1, hroot1, hni1, hai1, hshrink1, hexcl1⟩ := hstep
      obtain ⟨inv2, hroot2, hni2, hai2, hshrink2, hexcl2⟩ := ih s1 s2 inv1 hvrest h
      refine ⟨inv2, by rw [hroot2, hroot1], by rw [hni2, hni1], by rw [hai2, hai1],
        fun x hx => hshrink1 x (hshrink2 x hx), ?_⟩
      intro b hb hbv
      rcases List.mem_cons.mp hb with hb1 | hb1
      · intro hbm
        exact hexcl1 b hb1.symm hbv (hshrink2 _ hbm)
      · exact hexcl2 b hb1 (by rw [hroot1]; exact hbv)

/-- C2: for every valid root network, every list of (valid) exclusion
requests applied before the first `assign()` call, and every number `N`
of subsequent `assign()` calls that all succeed, the `N` returned
addresses are pairwise distinct, each lies within the root network, and
each differs from every excluded reserved address. -/
theorem c2_no_collision (root : IPNetwork) (excls : List ExclReq) (N : Nat)
    (s s2 : AddressAssigner) (rs : List IPAddress)
    (hv : validNet root)
    (hexv : ∀ r ∈ excls, validExclReq r)
    (hmk : (mkAssigner root).bind (fun s0 => excludeAll s0 excls) = .ok s)
    (hassign : assignN s N = .ok (rs, s2)) :
    rs.Nodup ∧ (∀ a ∈ rs, a.inNet root) ∧
      (∀ a ∈ rs, ∀ b : IPAddress, ExclReq.addr b ∈ excls → a ≠ b) := by
  obtain ⟨s0, hs0, inv0, hroot0, hni0, hai0, hmem0⟩ := mkAssigner_spec hv
  rw [hs0] at hmk
  have hmk2 : excludeAll s0 excls = .ok s := hmk
  obtain ⟨inv, hroot, hni, hai, hshrink, hexcl⟩ :=
    excludeAll_spec excls s0 s inv0 hexv hmk2
  have hwfs : cursorWF s := cursorWF_fresh (by rw [hai, hai0])
  obtain ⟨hrs, hlen, hasg⟩ := assignN_spec N s hwfs rs s2 hassign
  have hfresh : streamFrom s = s.assignable.flatMap IPNetwork.addrList :=
    streamFrom_fresh (by rw [hni, hni0]) (by rw [hai, hai0])
  have hrootr : s.root_network = root := by rw [hroot, hroot0]
  have hmemstream : ∀ a ∈ rs, ∃ e ∈ s.assignable, a ∈ e.addrList := by
    intro a ha
    rw [hrs] at ha
    have ha2 := (List.take_sublist N (streamFrom s)).subset ha
    rw [hfresh, List.mem_flatMap] at ha2
    exact ha2
  refine ⟨?_, ?_, ?_⟩
  · rw [hrs, hfresh]
    exact (List.take_sublist _ _).nodup (flatMap_addrList_nodup inv.2.2)
  · intro a ha
    obtain ⟨e, he, hae⟩ := hmemstream a ha
    obtain ⟨hev, hec⟩ := addrList_mem.mp hae
    obtain ⟨-, hever, hesub⟩ := inv.2.1 e he
    refine ⟨by rw [hev, hever, hrootr], ?_⟩
    rw [← hrootr]
    exact containsNat_mono (hrootr ▸ hesub) hec
  · intro a ha b hb hab
    subst hab
    obtain ⟨e, he, hae⟩ := hmemstream a ha
    obtain ⟨hev, hec⟩ := addrList_mem.mp hae
    obtain ⟨-, hever, -⟩ := inv.2.1 e he
    have habv : a.version = s0.root_network.version := by
      rw [hev, hever, hroot]
    exact hexcl a hb habv ⟨e, he, hec⟩

/-- The concrete state reached in the C2 witness after constructing on
10.0.0.0/30 and excluding the reserved address 10.0.0.1. -/
def c2SampleState : AddressAssigner :=
  ⟨sampleNet30, [⟨4, 0x0A000002, 32⟩], 0, 0⟩

/-- Witness for C2 at a concrete input: root 10.0.0.0/30, reserved
address 10.0.0.1 excluded, one assignment returning 10.0.0.2. -/
theorem c2_no_collision_witness :
    validNet sampleNet30 ∧
    (∀ r ∈ [ExclReq.addr ⟨4, 0x0A000001⟩], validExclReq r) ∧
    ((mkAssigner sampleNet30).bind
        (fun s0 => excludeAll s0 [ExclReq.addr ⟨4, 0x0A000001⟩]) = .ok c2SampleState) ∧
    (assignN c2SampleState 1 =
        .ok ([⟨4, 0x0A000002⟩], ⟨sampleNet30, [⟨4, 0x0A000002, 32⟩], 0, 1⟩)) ∧
    (([⟨4, 0x0A000002⟩] : List IPAddress).Nodup ∧
      (∀ a ∈ ([⟨4, 0x0A000002⟩] : List IPAddress), a.inNet sampleNet30) ∧
      (∀ a ∈ ([⟨4, 0x0A000002⟩] : List IPAddress), ∀ b : IPAddress,
        ExclReq.addr b ∈ [ExclReq.addr ⟨4, 0x0A000001⟩] → a ≠ b)) :=
  ⟨by decide, by decide, by decide, by decide,
    c2_no_collision sampleNet30 [ExclReq.addr ⟨4, 0x0A000001⟩] 1
      c2SampleState ⟨sampleNet30, [⟨4, 0x0A000002, 32⟩], 0, 1⟩ [⟨4, 0x0A000002⟩]
      (by decide) (by decide) (by decide) (by decide)⟩

/-! ## Commutation of single-address exclusions -/

/-- The fragment list produced for one entry by excluding one address. -/
def carve (e : IPNetwork) (a : IPAddress) : List IPNetwork :=
  exclFrag e (hostNet a)

/-- The splitting loop does not depend on the exact amount of fuel, as
long as there is enough of it. -/
lemma excludeAux_fuel_irrel :
    ∀ (f1 f2 : Nat) (self other : IPNetwork), validNet self → validNet other →
      other.version = self.version → netSub other self → other ≠ self →
      other.prefixlen ≤ self.prefixlen + f1 → other.prefixlen ≤ self.prefixlen + f2 →
      excludeAux f1 self other = excludeAux f2 self other := by
  intro f1
  induction f1 with
  | zero =>
    intro f2 self other hvs hvo hver hsub hne hf1 hf2
    have := prefix_lt_of_ssub hvo hvs hver hsub hne
    exact absurd hf1 (by omega)
  | succ f1 ih =>
    intro f2 self other hvs hvo hver hsub hne hf1 hf2
    have hplt := prefix_lt_of_ssub hvo hvs hver hsub hne
    cases f2 with
    | zero => exact absurd hf2 (by omega)
    | succ f2 =>
      have hpw : self.prefixlen < ipWidth self.version := by
        have := hvo.2.1
        rw [hver] at this
        omega
      have hv1 := valid_lowerHalf hvs hpw
      have hv2 := valid_upperHalf hvs hpw
      simp only [excludeAux]
      by_cases he1 : lowerHalf self = other
      · rw [if_pos he1, if_pos he1]
      · rw [if_neg he1, if_neg he1]
        by_cases he2 : upperHalf self = other
        · rw [if_pos he2, if_pos he2]
        · rw [if_neg he2, if_neg he2]
          by_cases hs1 : subnetOf other (lowerHalf self) = true
          · rw [if_pos hs1, if_pos hs1]
            rw [ih f2 (lowerHalf self) other hv1 hvo
              (by rw [lowerHalf_version]; exact hver)
              ((subnetOf_iff _ _).mp hs1) (fun h => he1 h.symm)
              (by rw [lowerHalf_prefixlen]; omega)
              (by rw [lowerHalf_prefixlen]; omega)]
          · rw [if_neg hs1, if_neg hs1]
            by_cases hs2 : subnetOf other (upperHalf self) = true
            · rw [if_pos hs2, if_pos hs2]
              rw [ih f2 (upperHalf self) other hv2 hvo
                (by rw [upperHalf_version]; exact hver)
                ((subnetOf_iff _ _).mp hs2) (fun h => he2 h.symm)
                (by rw [upperHalf_prefixlen]; omega)
                (by rw [upperHalf_prefixlen]; omega)]
            · rw [if_neg hs2, if_neg hs2]

lemma subnetOf_self (e : IPNetwork) : subnetOf e e = true := by
  simp [subnetOf]

/-- Carving an address out of its own host network removes it
entirely. -/
lemma carve_self (a : IPAddress) : carve (hostNet a) a = [] := by
  unfold carve exclFrag address_exclude
  rw [if_neg (by simp), if_neg (not_not_intro (subnetOf_self _)), if_pos rfl]

/-- Carving an address that is not in the entry keeps the entry
(`address_exclude` raises `ValueError`, treated as non-overlap). -/
lemma carve_not_mem {e : IPNetwork} {a : IPAddress} (hav : a.version = e.version)
    (h : ¬ e.containsNat a.value) : carve e a = [e] := by
  unfold carve exclFrag address_exclude
  rw [if_neg (by simp [hostNet, hav]),
    if_pos (fun hs => h ((netSub_hostNet_iff a e).mp ((subnetOf_iff _ _).mp hs)))]

/-- Unfolding one split of the carve of an in-range address out of an
entry larger than a host network: the half not containing the address is
kept whole and the half containing it is carved recursively. -/
lemma carve_succ {e : IPNetwork} {a : IPAddress} (hve : validNet e)
    (hav : a.version = e.version) (hvala : validAddr a)
    (hmem : e.containsNat a.value) (hne : hostNet a ≠ e) :
    ((lowerHalf e).containsNat a.value ∧ ¬ (upperHalf e).containsNat a.value ∧
        carve e a = upperHalf e :: carve (lowerHalf e) a) ∨
      ((upperHalf e).containsNat a.value ∧ ¬ (lowerHalf e).containsNat a.value ∧
        carve e a = lowerHalf e :: carve (upperHalf e) a) := by
  have hvh : validNet (hostNet a) := validNet_hostNet hvala
  have hsub : netSub (hostNet a) e := (netSub_hostNet_iff a e).mpr hmem
  have hverh : (hostNet a).version = e.version := hav
  have hplt := prefix_lt_of_ssub hvh hve hverh hsub hne
  have hpw : e.prefixlen < ipWidth e.version := by
    have h2 : (hostNet a).prefixlen = ipWidth e.version := by
      show ipWidth a.version = ipWidth e.version
      rw [hav]
    omega
  have hv1 := valid_lowerHalf hve hpw
  have hv2 := valid_upperHalf hve hpw
  have hd12 := halves_disjoint hpw
  have hcarve : carve e a = excludeAux (ipWidth e.version) e (hostNet a) := by
    unfold carve exclFrag address_exclude
    rw [if_neg (by simp [hostNet, hav]),
      if_neg (not_not_intro ((subnetOf_iff _ _).mpr hsub)), if_neg hne]
  have hW : ipWidth e.version = (ipWidth e.version - 1) + 1 := by
    unfold ipWidth
    split <;> omega
  have hhost_contains : (hostNet a).containsNat a.value := by
    rw [hostNet_contains]
  rcases (half_partition hpw a.value).mp hmem with hL | hU2
  · left
    have hU : ¬ (upperHalf e).containsNat a.value :=
      not_containsNat_of_disjoint hd12 hL
    refine ⟨hL, hU, ?_⟩
    rw [hcarve, hW]
    simp only [excludeAux]
    by_cases he1 : lowerHalf e = hostNet a
    · rw [if_pos he1, he1, carve_self]
    · rw [if_neg he1]
      have he2 : upperHalf e ≠ hostNet a := by
        intro h
        exact hU (by rw [h]; exact hhost_contains)
      rw [if_neg he2]
      have hs1 : subnetOf (hostNet a) (lowerHalf e) = true :=
        (subnetOf_iff _ _).mpr ((netSub_hostNet_iff a _).mpr hL)
      rw [if_pos hs1]
      congr 1
      have hcarve1 : carve (lowerHalf e) a =
          excludeAux (ipWidth e.version) (lowerHalf e) (hostNet a) := by
        unfold carve exclFrag address_exclude
        rw [if_neg (by simp [hostNet, lowerHalf, hav]),
          if_neg (not_not_intro hs1), if_neg (fun h => he1 h.symm)]
        rfl
      rw [hcarve1]
      exact (excludeAux_fuel_irrel (ipWidth e.version) (ipWidth e.version - 1)
        (lowerHalf e) (hostNet a) hv1 hvh
        (by rw [lowerHalf_version]; exact hverh)
        ((netSub_hostNet_iff a _).mpr hL) (fun h => he1 h.symm)
        (by
          show ipWidth a.version ≤ e.prefixlen + 1 + ipWidth e.version
          rw [hav]
          omega)
        (by
          show ipWidth a.version ≤ e.prefixlen + 1 + (ipWidth e.version - 1)
          rw [hav]
          omega)).symm
  · right
    have hL2 : ¬ (lowerHalf e).containsNat a.value :=
      not_containsNat_of_disjoint (netDisjoint_symm hd12) hU2
    refine ⟨hU2, hL2, ?_⟩
    rw [hcarve, hW]
    simp only [excludeAux]
    have he1 : lowerHalf e ≠ hostNet a := by
      intro h
      exact hL2 (by rw [h]; exact hhost_contains)
    rw [if_neg he1]
    by_cases he2 : upperHalf e = hostNet a
    · rw [if_pos he2, he2, carve_self]
    · rw [if_neg he2]
      have hs1 : ¬ subnetOf (hostNet a) (lowerHalf e) = true := by
        intro h
        exact hL2 ((netSub_hostNet_iff a _).mp ((subnetOf_iff _ _).mp h))
      rw [if_neg hs1]
      have hs2 : subnetOf (hostNet a) (upperHalf e) = true :=
        (subnetOf_iff _ _).mpr ((netSub_hostNet_iff a _).mpr hU2)
      rw [if_pos hs2]
      congr 1
      have hcarve2 : carve (upperHalf e) a =
          excludeAux (ipWidth e.version) (upperHalf e) (hostNet a) := by
        unfold carve exclFrag address_exclude
        rw [if_neg (by simp [hostNet, upperHalf, hav]),
          if_neg (not_not_intro hs2), if_neg (fun h => he2 h.symm)]
        rfl
      rw [hcarve2]
      exact (excludeAux_fuel_irrel (ipWidth e.version) (ipWidth e.version - 1)
        (upperHalf e) (hostNet a) hv2 hvh
        (by rw [upperHalf_version]; exact hverh)
        ((netSub_hostNet_iff a _).mpr hU2) (fun h => he2 h.symm)
        (by
          show ipWidth a.version ≤ e.prefixlen + 1 + ipWidth e.version
          rw [hav]
          omega)
        (by
          show ipWidth a.version ≤ e.prefixlen + 1 + (ipWidth e.version - 1)
          rw [hav]
          omega)).symm

/-- Fragment soundness specialised to address carving. -/
lemma carve_sound {e : IPNetwork} {a : IPAddress} (hve : validNet e)
    (hav : a.version = e.version) (hvala : validAddr a) :
    ∀ f ∈ carve e a, validNet f ∧ f.version = e.version ∧ netSub f e :=
  exclFrag_sound hve (validNet_hostNet hvala) hav

/-- Carving an address that misses every element of a fragment list is
the identity. -/
lemma flatMap_carve_id {l : List IPNetwork} {b : IPAddress}
    (hbv : ∀ f ∈ l, b.version = f.version)
    (hb : ∀ f ∈ l, ¬ f.containsNat b.value) :
    l.flatMap (fun f => carve f b) = l := by
  induction l with
  | nil => rfl
  | cons f rest ih =>
    rw [List.flatMap_cons, carve_not_mem (hbv f (List.mem_cons_self _ _))
        (hb f (List.mem_cons_self _ _)),
      ih (fun g hg => hbv g (List.mem_cons_of_mem _ hg))
        (fun g hg => hb g (List.mem_cons_of_mem _ hg))]
    rfl

/-- Carving two distinct in-range addresses out of one entry commutes up
to permutation of the resulting fragment multiset. -/
lemma carve_comm_main :
    ∀ (k : Nat) (e : IPNetwork) (a b : IPAddress), validNet e →
      a.version = e.version → b.version = e.version →
      validAddr a → validAddr b →
      e.containsNat a.value → e.containsNat b.value → a.value ≠ b.value →
      ipWidth e.version - e.prefixlen ≤ k →
      ((carve e a).flatMap (fun f => carve f b)).Perm
        ((carve e b).flatMap (fun f => carve f a)) := by
  intro k
  induction k with
  | zero =>
    intro e a b hve hav hbv hvala hvalb hma hmb hne hk
    exfalso
    have hnum : e.numAddresses = 1 := by
      unfold IPNetwork.numAddresses
      have h0 : ipWidth e.version - e.prefixlen = 0 := by omega
      rw [h0, pow_zero]
    unfold IPNetwork.containsNat at hma hmb
    omega
  | succ k ih =>
    intro e a b hve hav hbv hvala hvalb hma hmb hne hk
    have hnea : hostNet a ≠ e := by
      intro h
      rw [← h] at hmb
      exact hne ((hostNet_contains a b.value).mp hmb).symm
    have hneb : hostNet b ≠ e := by
      intro h
      rw [← h] at hma
      exact hne ((hostNet_contains b a.value).mp hma)
    have hpw : e.prefixlen < ipWidth e.version := by
      by_contra hge
      push_neg at hge
      have hnum : e.numAddresses = 1 := by
        unfold IPNetwork.numAddresses
        have h0 : ipWidth e.version - e.prefixlen = 0 := by omega
        rw [h0, pow_zero]
      unfold IPNetwork.containsNat at hma hmb
      omega
    have hv1 := valid_lowerHalf hve hpw
    have hv2 := valid_upperHalf hve hpw
    have hfuel1 : ipWidth (lowerHalf e).version - (lowerHalf e).prefixlen ≤ k := by
      rw [lowerHalf_version, lowerHalf_prefixlen]
      omega
    have hfuel2 : ipWidth (upperHalf e).version - (upperHalf e).prefixlen ≤ k := by
      rw [upperHalf_version, upperHalf_prefixlen]
      omega
    have hsound1a := carve_sound hv1 (show a.version = (lowerHalf e).version from hav) hvala
    have hsound1b := carve_sound hv1 (show b.version = (lowerHalf e).version from hbv) hvalb
    have hsound2a := carve_sound hv2 (show a.version = (upperHalf e).version from hav) hvala
    have hsound2b := carve_sound hv2 (show b.version = (upperHalf e).version from hbv) hvalb
    rcases carve_succ hve hav hvala hma hnea with ⟨haL, haU, hea⟩ | ⟨haU, haL, hea⟩ <;>
      rcases carve_succ hve hbv hvalb hmb hneb with ⟨hbL, hbU, heb⟩ | ⟨hbU, hbL, heb⟩
    · rw [hea, heb, List.flatMap_cons, List.flatMap_cons,
        carve_not_mem (show b.version = (upperHalf e).version from hbv) hbU,
        carve_not_mem (show a.version = (upperHalf e).version from hav) haU]
      simp only [List.singleton_append]
      exact (ih (lowerHalf e) a b hv1 hav hbv hvala hvalb haL hbL hne hfuel1).cons _
    · rw [hea, heb, List.flatMap_cons, List.flatMap_cons]
      rw [flatMap_carve_id
          (fun f hf => (show b.version = (lowerHalf e).version from hbv).trans
            ((hsound1a f hf).2.1).symm)
          (fun f hf hc => hbL (containsNat_mono (hsound1a f hf).2.2 hc)),
        flatMap_carve_id
          (fun f hf => (show a.version = (upperHalf e).version from hav).trans
            ((hsound2b f hf).2.1).symm)
          (fun f hf hc => haU (containsNat_mono (hsound2b f hf).2.2 hc))]
      exact List.perm_append_comm
    · rw [hea, heb, List.flatMap_cons, List.flatMap_cons]
      rw [flatMap_carve_id
          (fun f hf => (show b.version = (upperHalf e).version from hbv).trans
            ((hsound2a f hf).2.1).symm)
          (fun f hf hc => hbU (containsNat_mono (hsound2a f hf).2.2 hc)),
        flatMap_carve_id
          (fun f hf => (show a.version = (lowerHalf e).version from hav).trans
            ((hsound1b f hf).2.1).symm)
          (fun f hf hc => haL (containsNat_mono (hsound1b f hf).2.2 hc))]
      exact List.perm_append_comm
    · rw [hea, heb, List.flatMap_cons, List.flatMap_cons,
        carve_not_mem (show b.version = (lowerHalf e).version from hbv) hbL,
        carve_not_mem (show a.version = (lowerHalf e).version from hav) haL]
      simp only [List.singleton_append]
      exact (ih (upperHalf e) a b hv2 hav hbv hvala hvalb haU hbU hne hfuel2).cons _

/-- Carving two addresses out of one entry commutes up to permutation,
with no assumptions on membership. -/
lemma carve_comm {e : IPNetwork} {a b : IPAddress} (hve : validNet e)
    (hav : a.version = e.version) (hbv : b.version = e.version)
    (hvala : validAddr a) (hvalb : validAddr b) :
    ((carve e a).flatMap (fun f => carve f b)).Perm
      ((carve e b).flatMap (fun f => carve f a)) := by
  by_cases hma : e.containsNat a.value
  · by_cases hmb : e.containsNat b.value
    · by_cases hab : a.value = b.value
      · have hababs : a = b := by
          have h1 : a.version = b.version := by rw [hav, hbv]
          cases a
          cases b
          simp_all
        subst hababs
        exact List.Perm.refl _
      · exact carve_comm_main (ipWidth e.version - e.prefixlen) e a b hve hav hbv
          hvala hvalb hma hmb hab (le_refl _)
    · have hsa := carve_sound hve hav hvala
      rw [carve_not_mem hbv hmb, List.flatMap_cons]
      rw [flatMap_carve_id
          (fun f hf => hbv.trans ((hsa f hf).2.1).symm)
          (fun f hf hc => hmb (containsNat_mono (hsa f hf).2.2 hc))]
      simp
  · have hca := carve_not_mem hav hma
    rw [hca, List.flatMap_cons]
    have hsb := carve_sound hve hbv hvalb
    rw [flatMap_carve_id
        (fun f hf => hav.trans ((hsb f hf).2.1).symm)
        (fun f hf hc => hma (containsNat_mono (hsb f hf).2.2 hc))]
    simp

instance : IsTotal IPNetwork netLe := ⟨by
  intro a b
  unfold netLe
  omega⟩

instance : IsTrans IPNetwork netLe := ⟨by
  intro a b c hab hbc
  unfold netLe at *
  omega⟩

instance : IsAntisymm IPNetwork netLe := ⟨by
  intro a b hab hba
  have hv : a.version = b.version := by
    unfold netLe at hab hba
    omega
  have hbse : a.base = b.base := by
    unfold netLe at hab hba
    omega
  have hp : a.prefixlen = b.prefixlen := by
    unfold netLe at hab hba
    omega
  cases a
  cases b
  simp_all⟩

/-- Python's sort result only depends on the multiset of entries. -/
lemma sortNets_eq_of_perm {l1 l2 : List IPNetwork} (h : l1.Perm l2) :
    sortNets l1 = sortNets l2 :=
  List.eq_of_perm_of_sorted ((sortNets_perm l1).trans (h.trans (sortNets_perm l2).symm))
    (List.sorted_insertionSort _ _) (List.sorted_insertionSort _ _)

lemma flatMap_assoc_nets (l : List IPNetwork) (f : IPNetwork → List IPNetwork)
    (g : IPNetwork → List IPNetwork) :
    (l.flatMap f).flatMap g = l.flatMap (fun e => (f e).flatMap g) := by
  induction l with
  | nil => rfl
  | cons e rest ih =>
    rw [List.flatMap_cons, List.flatMap_append, ih, List.flatMap_cons]

/-- A same-family `exclude_address` call, written as the sorted
concatenation of the per-entry carvings. -/
lemma exclude_address_sorted {s : AddressAssigner} {a : IPAddress}
    (inv : AssignerInv s) (hver : a.version = s.root_network.version) :
    exclude_address s a =
      .ok { s with
        assignable := sortNets (s.assignable.flatMap (fun e => carve e a)) } := by
  unfold exclude_address
  rw [if_neg (not_not_intro hver)]
  unfold exclude_net
  rw [excludeEntries_ok
    (fun e he => ((inv.2.1 e he).2.1.trans hver.symm :
      e.version = (hostNet a).version))]
  rfl

/-- A wrong-family `exclude_address` call is the identity. -/
lemma exclude_address_mismatch {s : AddressAssigner} {a : IPAddress}
    (h : a.version ≠ s.root_network.version) : exclude_address s a = .ok s := by
  unfold exclude_address
  rw [if_pos h]

/-- Two same-family single-address exclusions in a row, as one sorted
double-carve over the original assignable list. -/
lemma exclude_address_twice {s : AddressAssigner} {a b : IPAddress}
    (inv : AssignerInv s) (hva : validAddr a)
    (hvera : a.version = s.root_network.version)
    (hverb : b.version = s.root_network.version) :
    (exclude_address s a).bind (fun s1 => exclude_address s1 b) =
      .ok { s with
        assignable := sortNets
          ((sortNets (s.assignable.flatMap (fun e => carve e a))).flatMap
            (fun e => carve e b)) } := by
  obtain ⟨sa, hsa, inva, hroota, -, -, -⟩ := exclude_address_spec inv hva
  have hsa2 := exclude_address_sorted inv hvera
  rw [hsa2] at hsa
  have hsaeq := Except.ok.inj hsa
  rw [hsa2, hsaeq]
  show exclude_address sa b = _
  rw [exclude_address_sorted inva (show b.version = sa.root_network.version by
    rw [hroota]; exact hverb)]
  rw [← hsaeq]

/-- Two consecutive single-address exclusions commute. -/
lemma exclude_address_comm {s : AddressAssigner} {a b : IPAddress}
    (inv : AssignerInv s) (hva : validAddr a) (hvb : validAddr b) :
    (exclude_address s a).bind (fun s1 => exclude_address s1 b) =
      (exclude_address s b).bind (fun s1 => exclude_address s1 a) := by
  by_cases hvera : a.version = s.root_network.version
  · by_cases hverb : b.version = s.root_network.version
    · rw [exclude_address_twice inv hva hvera hverb,
        exclude_address_twice inv hvb hverb hvera]
      have hperm : ((sortNets (s.assignable.flatMap (fun e => carve e a))).flatMap
            (fun e => carve e b)).Perm
          ((sortNets (s.assignable.flatMap (fun e => carve e b))).flatMap
            (fun e => carve e a)) := by
        refine (List.Perm.flatMap_right _ (sortNets_perm _)).trans ?_
        rw [flatMap_assoc_nets]
        have h1 : (s.assignable.flatMap
              (fun e => (carve e a).flatMap (fun f => carve f b))).Perm
            (s.assignable.flatMap
              (fun e => (carve e b).flatMap (fun f => carve f a))) := by
          refine List.Perm.flatMap_left _ ?_
          intro e he
          obtain ⟨hvee, hver_e, -⟩ := inv.2.1 e he
          exact carve_comm hvee (by rw [hvera, hver_e]) (by rw [hverb, hver_e]) hva hvb
        have h2 : (s.assignable.flatMap
              (fun e => (carve e b).flatMap (fun f => carve f a))).Perm
            ((sortNets (s.assignable.flatMap (fun e => carve e b))).flatMap
              (fun e => carve e a)) := by
          rw [← flatMap_assoc_nets]
          exact (List.Perm.flatMap_right _ (sortNets_perm _)).symm
        exact h1.trans h2
      rw [sortNets_eq_of_perm hperm]
    · obtain ⟨sa, hsa, inva, hroota, -, -, -⟩ := exclude_address_spec inv hva
      rw [hsa, exclude_address_mismatch hverb]
      show exclude_address sa b = exclude_address s a
      rw [exclude_address_mismatch (show b.version ≠ sa.root_network.version by
        rw [hroota]; exact hverb), hsa]
  · by_cases hverb : b.version = s.root_network.version
    · obtain ⟨sb, hsb, invb, hrootb, -, -, -⟩ := exclude_address_spec inv hvb
      rw [hsb, exclude_address_mismatch hvera]
      show exclude_address s b = exclude_address sb a
      rw [exclude_address_mismatch (show a.version ≠ sb.root_network.version by
        rw [hrootb]; exact hvera), hsb]
    · rw [exclude_address_mismatch hvera, exclude_address_mismatch hverb]
      show exclude_address s b = exclude_address s a
      rw [exclude_address_mismatch hvera, exclude_address_mismatch hverb]

/-- Applying a permuted list of single-address exclusions from any
invariant state yields the same result. -/
lemma excludeAddresses_perm_eq {l1 l2 : List IPAddress} (hperm : l1.Perm l2) :
    ∀ s : AddressAssigner, AssignerInv s → (∀ a ∈ l1, validAddr a) →
      excludeAddresses s l1 = excludeAddresses s l2 := by
  induction hperm with
  | nil =>
    intro s inv hv
    rfl
  | cons x hp ih =>
    intro s inv hv
    obtain ⟨s1, hs1, inv1, -, -, -, -⟩ :=
      exclude_address_spec inv (hv x (List.mem_cons_self _ _))
    simp only [excludeAddresses, hs1]
    exact ih s1 inv1 (fun a ha => hv a (List.mem_cons_of_mem _ ha))
  | swap x y l =>
    intro s inv hv
    have hvx : validAddr x := hv x (by simp)
    have hvy : validAddr y := hv y (by simp)
    obtain ⟨sy, hsy, invy, -, -, -, -⟩ := exclude_address_spec inv hvy
    obtain ⟨syx, hsyx, invyx, -, -, -, -⟩ := exclude_address_spec invy hvx
    obtain ⟨sx, hsx, invx, -, -, -, -⟩ := exclude_address_spec inv hvx
    obtain ⟨sxy, hsxy, invxy, -, -, -, -⟩ := exclude_address_spec invx hvy
    have hcomm := exclude_address_comm inv hvy hvx
    rw [hsy, hsx] at hcomm
    have hcomm2 : exclude_address sy x = exclude_address sx y := hcomm
    rw [hsyx, hsxy] at hcomm2
    have heq : syx = sxy := Except.ok.inj hcomm2
    have hL : excludeAddresses s (y :: x :: l) = excludeAddresses syx l := by
      simp only [excludeAddresses, hsy, hsyx]
    have hR : excludeAddresses s (x :: y :: l) = excludeAddresses sxy l := by
      simp only [excludeAddresses, hsx, hsxy]
    rw [hL, hR, heq]
  | trans hp1 hp2 ih1 ih2 =>
    intro s inv hv
    rw [ih1 s inv hv, ih2 s inv (fun a ha => hv a (hp1.mem_iff.mpr ha))]

/-- C3 (amended): for every valid root network and every finite list of
valid single-address exclusions applied via `exclude_address`, applying
them in any permutation order yields the same final allocator state and
hence the same assignable list.  (For general network exclusions the
original claim fails, see the counterexample.) -/
theorem c3_amended_address_exclusion_order_independent (root : IPNetwork)
    (addrs1 addrs2 : List IPAddress) (s0 : AddressAssigner)
    (hv : validNet root) (hva : ∀ a ∈ addrs1, validAddr a)
    (hperm : addrs1.Perm addrs2) (hmk : mkAssigner root = .ok s0) :
    excludeAddresses s0 addrs1 = excludeAddresses s0 addrs2 := by
  obtain ⟨s0x, hs0x, inv0, -, -, -, -⟩ := mkAssigner_spec hv
  rw [hs0x] at hmk
  have heq : s0x = s0 := Except.ok.inj hmk
  subst heq
  exact excludeAddresses_perm_eq hperm s0x inv0 hva

/-- Witness for the amended C3 at a concrete input: excluding 10.0.0.1
and 10.0.0.2 from the allocator on 10.0.0.0/30 in either order gives the
same state. -/
theorem c3_amended_witness :
    validNet sampleNet30 ∧
    (∀ a ∈ ([⟨4, 0x0A000001⟩, ⟨4, 0x0A000002⟩] : List IPAddress), validAddr a) ∧
    ([⟨4, 0x0A000001⟩, ⟨4, 0x0A000002⟩] : List IPAddress).Perm
      [⟨4, 0x0A000002⟩, ⟨4, 0x0A000001⟩] ∧
    mkAssigner sampleNet30 =
      .ok ⟨sampleNet30, [⟨4, 0x0A000001, 32⟩, ⟨4, 0x0A000002, 32⟩], 0, 0⟩ ∧
    excludeAddresses ⟨sampleNet30, [⟨4, 0x0A000001, 32⟩, ⟨4, 0x0A000002, 32⟩], 0, 0⟩
        [⟨4, 0x0A000001⟩, ⟨4, 0x0A000002⟩] =
      excludeAddresses ⟨sampleNet30, [⟨4, 0x0A000001, 32⟩, ⟨4, 0x0A000002, 32⟩], 0, 0⟩
        [⟨4, 0x0A000002⟩, ⟨4, 0x0A000001⟩] :=
  ⟨by decide, by decide, by decide, by decide,
    c3_amended_address_exclusion_order_independent sampleNet30
      [⟨4, 0x0A000001⟩, ⟨4, 0x0A000002⟩] [⟨4, 0x0A000002⟩, ⟨4, 0x0A000001⟩]
      ⟨sampleNet30, [⟨4, 0x0A000001, 32⟩, ⟨4, 0x0A000002, 32⟩], 0, 0⟩
      (by decide) (by decide) (by decide) (by decide)⟩

/-! ## The routing-rule compiler (`IPTablesRulesGenerator.py`) -/

/-- A resolved routing target: an address object (a host's assigned
address) or a network object (a `!literal` side). -/
inductive Target where
  | addr : IPAddress → Target
  | net : IPNetwork → Target
  deriving DecidableEq, Repr

/-- `.version` of the underlying `ipaddress` object. -/
def Target.version : Target → Nat
  | .addr a => a.version
  | .net n => n.version

/-- Decimal rendering of one IPv4 dotted-quad. -/
def ipv4ToString (v : Nat) : String :=
  toString (v / 16777216 % 256) ++ "." ++ toString (v / 65536 % 256) ++ "." ++
    toString (v / 256 % 256) ++ "." ++ toString (v % 256)

/-- Hex rendering of one 16-bit IPv6 group (lower case, no padding). -/
def hexGroupStr (n : Nat) : String :=
  String.mk (Nat.toDigits 16 n)

/-- Rendering of an IPv6 address.  The model renders all eight groups in
full; Python additionally compresses zero runs with `::`, which none of
the verified claims depend on. -/
def ipv6ToString (v : Nat) : String :=
  String.intercalate ":"
    ((List.range 8).map (fun i => hexGroupStr (v / 2 ^ (16 * (7 - i)) % 65536)))

/-- Python `str(...)` of a routing target. -/
def Target.str : Target → String
  | .addr a => if a.version = 4 then ipv4ToString a.value else ipv6ToString a.value
  | .net n =>
    (if n.version = 4 then ipv4ToString n.base else ipv6ToString n.base) ++ "/" ++
      toString n.prefixlen

/-- The slice of a host dictionary the rule compiler reads: its name and
its `assigned` address list. -/
structure Host where
  name : String
  assigned : List Target
  deriving DecidableEq, Repr

/-- The slice of `WireguardGenerator` state the rule compiler consults:
the host directory, the group directory and the concentrator's interface
name (`concentrator.get("ifname", "wg0")`). -/
structure WGGen where
  hosts_by_name : List (String × Host)
  groups : List (String × List Host)
  concentrator_ifname : String
  deriving DecidableEq, Repr

/-- Dictionary lookup. -/
def lookupAssoc {α : Type} : List (String × α) → String → Option α
  | [], _ => none
  | (k, v) :: rest, key => if k = key then some v else lookupAssoc rest key

/-- `WireguardGenerator.get_host`. -/
def get_host (w : WGGen) (name : String) : Except PyErr Host :=
  match lookupAssoc w.hosts_by_name name with
  | some h => .ok h
  | none => .error (.noSuchHostException name)

/-- `WireguardGenerator.get_group_members`. -/
def get_group_members (w : WGGen) (g : String) : Except PyErr (List Host) :=
  match lookupAssoc w.groups g with
  | some hs => .ok hs
  | none => .error (.noSuchGroupException g)

/-- One resolved rule side (`IPTablesRule._ParsedSide`). -/
structure ParsedSide where
  bind_interface : Bool
  networks : List (Option Target)
  deriving DecidableEq, Repr

/-! Model of the Python standard library `ipaddress.ip_network(str)`
literal grammar with `strict=True` (the default used by the source):
decimal dotted-quad IPv4 with an optional decimal prefix, hex-grouped
IPv6 with at most one `::` compression and an optional decimal prefix.
The rarely used netmask/hostmask prefix notations and the
IPv4-in-IPv6 form are not modelled.  Host bits set below the prefix make
the literal invalid (`ValueError`), as does everything unparsable. -/

/-- `str.split(sep)`. -/
def splitOn (sep : Char) : List Char → List (List Char)
  | [] => [[]]
  | x :: rest =>
    let r := splitOn sep rest
    if x = sep then [] :: r
    else
      match r with
      | [] => [[x]]
      | g :: gs => (x :: g) :: gs

/-- Decimal value of a digit string. -/
def decVal (cs : List Char) : Nat :=
  cs.foldl (fun acc c => acc * 10 + (c.toNat - 48)) 0

/-- Hex value of a hex-digit string. -/
def hexVal (cs : List Char) : Nat :=
  cs.foldl (fun acc c =>
    acc * 16 +
      (if c.toNat ≥ 97 then c.toNat - 87
       else if c.toNat ≥ 65 then c.toNat - 55
       else c.toNat - 48)) 0

/-- One IPv4 octet: one to three decimal digits, no leading zero, value
at most 255. -/
def parseOctet (cs : List Char) : Option Nat :=
  if cs.length = 0 then none
  else if cs.length > 3 then none
  else if ¬ cs.all Char.isDigit then none
  else if cs.length > 1 ∧ cs.take 1 = ['0'] then none
  else if decVal cs ≤ 255 then some (decVal cs) else none

/-- A dotted-quad IPv4 address literal. -/
def parseIPv4Addr (cs : List Char) : Option Nat :=
  match splitOn '.' cs with
  | [o1, o2, o3, o4] =>
    match parseOctet o1, parseOctet o2, parseOctet o3, parseOctet o4 with
    | some a, some b, some c, some d =>
      some (a * 16777216 + b * 65536 + c * 256 + d)
    | _, _, _, _ => none
  | _ => none

def isHexDigitChar (c : Char) : Bool :=
  c.isDigit || (('a' ≤ c) && (c ≤ 'f')) || (('A' ≤ c) && (c ≤ 'F'))

/-- One IPv6 group: one to four hex digits. -/
def parseHexGroup (cs : List Char) : Option Nat :=
  if cs.length = 0 then none
  else if cs.length > 4 then none
  else if ¬ cs.all isHexDigitChar then none
  else some (hexVal cs)

/-- Combine a full list of eight IPv6 groups into an address value. -/
def combineGroups (gs : List Nat) : Nat :=
  gs.foldl (fun acc g => acc * 65536 + g) 0

/-- Split a character list at the first occurrence of `::`. -/
def splitDoubleColon : List Char → Option (List Char × List Char)
  | [] => none
  | ':' :: ':' :: rest => some ([], rest)
  | c :: rest =>
    match splitDoubleColon rest with
    | some (l, r) => some (c :: l, r)
    | none => none

def parseGroupList (cs : List Char) : Option (List Nat) :=
  if cs.length = 0 then some []
  else (splitOn ':' cs).mapM parseHexGroup

/-- An IPv6 address literal, with at most one `::`. -/
def parseIPv6Addr (cs : List Char) : Option Nat :=
  match splitDoubleColon cs with
  | none =>
    match (splitOn ':' cs).mapM parseHexGroup with
    | some gs => if gs.length = 8 then some (combineGroups gs) else none
    | none => none
  | some (l, r) =>
    if (splitDoubleColon r).isSome then none
    else
      match parseGroupList l, parseGroupList r with
      | some gl, some gr =>
        if gl.length + gr.length ≤ 7 then
          some (combineGroups (gl ++ List.replicate (8 - gl.length - gr.length) 0 ++ gr))
        else none
      | _, _ => none

/-- A decimal prefix length of at most `w`. -/
def parsePrefixLen (w : Nat) (cs : List Char) : Option Nat :=
  if cs.length = 0 then none
  else if ¬ cs.all Char.isDigit then none
  else if decVal cs ≤ w then some (decVal cs) else none

/-- `ipaddress.ip_network(s)` with the strict host-bits check; `none`
models the `ValueError` the Python call raises on invalid input. -/
def ip_network_parse (s : String) : Option IPNetwork :=
  match splitOn '/' s.data with
  | [addr] =>
    match parseIPv4Addr addr with
    | some v => some ⟨4, v, 32⟩
    | none =>
      match parseIPv6Addr addr with
      | some v => some ⟨6, v, 128⟩
      | none => none
  | [addr, pre] =>
    match parseIPv4Addr addr with
    | some v =>
      match parsePrefixLen 32 pre with
      | some p => if v % 2 ^ (32 - p) = 0 then some ⟨4, v, p⟩ else none
      | none => none
    | none =>
      match parseIPv6Addr addr with
      | some v =>
        match parsePrefixLen 128 pre with
        | some p => if v % 2 ^ (128 - p) = 0 then some ⟨6, v, p⟩ else none
        | none => none
      | none => none
  | _ => none

/-- `IPTablesRule._resolve`. -/
def resolveSide (w : WGGen) (symbol : String) : Except PyErr ParsedSide :=
  if symbol = "*" then .ok ⟨false, [none]⟩
  else
    match symbol.data with
    | '!' :: rest =>
      match ip_network_parse (String.mk rest) with
      | some n => .ok ⟨false, [some (.net n)]⟩
      | none => .error .valueError
    | '@' :: rest =>
      match get_group_members w (String.mk rest) with
      | .ok members => .ok ⟨true, members.flatMap (fun m => m.assigned.map some)⟩
      | .error e => .error e
    | _ =>
      match get_host w symbol with
      | .ok h => .ok ⟨true, h.assigned.map some⟩
      | .error e => .error e

/-- Python `\s` restricted to the character set that can occur in the
verified rule strings. -/
def isSpacePy (c : Char) : Bool :=
  c = ' ' || c = '\t' || c = '\n' || c = '\r' ||
    c = '\x0b' || c = '\x0c'

/-- Match `p` as a prefix of `cs` and return the remainder. -/
def strPrefixRest : List Char → List Char → Option (List Char)
  | [], cs => some cs
  | _ :: _, [] => none
  | p :: ps, c :: cs => if p = c then strPrefixRest ps cs else none

/-- The arrow alternatives in the order the regex
`(<-|->|<->|<=|=>|<=>)` tries them. -/
def arrowCandidates : List (List Char) :=
  [['<', '-'], ['-', '>'], ['<', '-', '>'], ['<', '='], ['=', '>'], ['<', '=', '>']]

/-- Try one arrow alternative at the current position: the arrow must be
a prefix, must be followed by at least one whitespace character, and the
rest must be a nonempty whitespace-free right-hand side reaching the end
of the string (the `\s+(?P<rhs>[^\s]+)` tail of the fullmatch). -/
def tryArrowAt (cs arrow : List Char) : Option (List Char) :=
  match strPrefixRest arrow cs with
  | none => none
  | some rest =>
    let ws := rest.takeWhile isSpacePy
    let rhs := rest.dropWhile isSpacePy
    if ws.length = 0 then none
    else if rhs.length = 0 then none
    else if rhs.any isSpacePy then none
    else some rhs

def tryArrows (cs : List Char) : List (List Char) → Option (List Char × List Char)
  | [] => none
  | a :: rest =>
    match tryArrowAt cs a with
    | some rhs => some (a, rhs)
    | none => tryArrows cs rest

/-- `IPTablesRule._RULE_SYNTAX.fullmatch`: `(?P<lhs>[^\s]+)\s+`
`(?P<arrow>(<-|->|<->|<=|=>|<=>))\s+(?P<rhs>[^\s]+)`.  Because `lhs`
matches a maximal run of non-whitespace characters and every shorter
candidate would have to be followed by a whitespace character inside
that run, the regex engine never backtracks into `lhs` or the
whitespace runs, so the match is computed by this single left-to-right
pass with the ordered arrow alternation. -/
def ruleSyntaxFullmatch (s : String) : Option (String × String × String) :=
  let cs := s.data
  let lhs := cs.takeWhile (fun c => ! isSpacePy c)
  let rest1 := cs.dropWhile (fun c => ! isSpacePy c)
  let ws1 := rest1.takeWhile isSpacePy
  let rest2 := rest1.dropWhile isSpacePy
  if lhs.length = 0 then none
  else if ws1.length = 0 then none
  else
    match tryArrows rest2 arrowCandidates with
    | some (arrow, rhs) => some (String.mk lhs, String.mk arrow, String.mk rhs)
    | none => none

/-- A parsed and resolved routing rule (the state `IPTablesRule` carries
after `_parse_rule`). -/
structure ParsedRule where
  rule_str : String
  lhs : ParsedSide
  arrow : String
  rhs : ParsedSide
  deriving DecidableEq, Repr

/-- `IPTablesRule.bidirectional`. -/
def arrowBidirectional (arrow : String) : Bool :=
  arrow == "<->" || arrow == "<=>"

/-- `IPTablesRule.only_wg_interface`. -/
def arrowOnlyWg (arrow : String) : Bool :=
  arrow == "<->" || arrow == "->" || arrow == "<-"

/-- `IPTablesRule._parse_rule`: match the grammar, normalize `<-`/`<=`
by swapping sides, then resolve the left side and the right side. -/
def parse_rule (w : WGGen) (rule_str : String) : Except PyErr ParsedRule :=
  match ruleSyntaxFullmatch rule_str with
  | none => .error (.ruleParseException rule_str)
  | some (l0, ar0, r0) =>
    let norm :=
      if ar0 = "<-" then (r0, "->", l0)
      else if ar0 = "<=" then (r0, "=>", l0)
      else (l0, ar0, r0)
    match resolveSide w norm.1 with
    | .error e => .error e
    | .ok lhs =>
      match resolveSide w norm.2.2 with
      | .error e => .error e
      | .ok rhs => .ok ⟨rule_str, lhs, norm.2.1, rhs⟩

/-- `IPTablesRule._iptables_rule`: one generated command line. -/
def iptables_rule (rule_str : String) (src dst : Option Target) (is_ipv4 : Bool)
    (in_ifname out_ifname : Option String) (only_established : Bool) :
    List String :=
  (if is_ipv4 then ["iptables"] else ["ip6tables"]) ++
    ["-A", "FORWARD"] ++
    (if only_established then ["-m", "state", "--state", "ESTABLISHED,RELATED"]
      else []) ++
    (match in_ifname with | some i => ["-i", i] | none => []) ++
    (match out_ifname with | some o => ["-o", o] | none => []) ++
    (match src with | some t => ["-s", t.str] | none => []) ++
    (match dst with | some t => ["-d", t.str] | none => []) ++
    ["-j", "ACCEPT"] ++
    ["-m", "comment", "--comment",
      if only_established then "only established: " ++ rule_str else rule_str]

/-- `itertools.product`. -/
def listProduct {α β : Type} (xs : List α) (ys : List β) : List (α × β) :=
  xs.flatMap (fun x => ys.map (fun y => (x, y)))

/-- Version filter used by `_iterate_commands`
(`lambda addr: (addr is None) or (addr.version == v)`). -/
def versionPred (v : Nat) : Option Target → Bool
  | none => true
  | some t => t.version == v

/-- `IPTablesRule._iterate_ipversion_commands`: filter both sides by the
predicate, take the cartesian product and, for each pair, yield the
forward command and then the reverse command with
`only_established = not self.bidirectional`. -/
def iterate_ipversion_commands (w : WGGen) (r : ParsedRule) (is_ipv4 : Bool)
    (pred : Option Target → Bool) : List (List String) :=
  let all_lhs := r.lhs.networks.filter pred
  let all_rhs := r.rhs.networks.filter pred
  let ifname := w.concentrator_ifname
  (listProduct all_lhs all_rhs).flatMap (fun p =>
    let in_ifname := if arrowOnlyWg r.arrow then some ifname
      else if r.lhs.bind_interface then some ifname else none
    let out_ifname := if arrowOnlyWg r.arrow then some ifname
      else if r.rhs.bind_interface then some ifname else none
    [iptables_rule r.rule_str p.1 p.2 is_ipv4 in_ifname out_ifname false,
     iptables_rule r.rule_str p.2 p.1 is_ipv4 out_ifname in_ifname
       (! arrowBidirectional r.arrow)])

/-- `IPTablesRule._iterate_commands`: the IPv4 pass followed by the IPv6
pass. -/
def iterate_commands (w : WGGen) (r : ParsedRule) : List (List String) :=
  iterate_ipversion_commands w r true (versionPred 4) ++
    iterate_ipversion_commands w r false (versionPred 6)

/-- Compiling one routing-rule string: parse and resolve it, then emit
the command list (the per-rule body of `IPTablesRulesGenerator.generate`
and `IPTablesRule.generate`). -/
def compileRule (w : WGGen) (rule_str : String) : Except PyErr (List (List String)) :=
  match parse_rule w rule_str with
  | .ok r => .ok (iterate_commands w r)
  | .error e => .error e

/-! ## Properties of the rule compiler -/

/-- Printable ASCII characters are not whitespace. -/
lemma not_space_printable {c : Char} (h1 : 0x20 < c.toNat) : isSpacePy c = false := by
  unfold isSpacePy
  simp only [Bool.or_eq_false_iff, decide_eq_false_iff_not]
  refine ⟨⟨⟨⟨⟨?_, ?_⟩, ?_⟩, ?_⟩, ?_⟩, ?_⟩ <;>
    · intro hc
      subst hc
      exact absurd h1 (by decide)

/-- `any` of a predicate false everywhere. -/
lemma any_eq_false_of_all {p : Char → Bool} :
    ∀ l : List Char, (∀ c ∈ l, p c = false) → l.any p = false := by
  intro l h
  induction l with
  | nil => rfl
  | cons c cs ih =>
    rw [List.any_cons, h c (List.mem_cons_self _ _),
      ih (fun d hd => h d (List.mem_cons_of_mem _ hd))]
    rfl

/-- Splitting a whitespace-free token followed by a space. -/
lemma lhs_split (A rest : List Char) (hAp : ∀ c ∈ A, isSpacePy c = false) :
    (A ++ ' ' :: rest).takeWhile (fun c => ! isSpacePy c) = A ∧
      (A ++ ' ' :: rest).dropWhile (fun c => ! isSpacePy c) = ' ' :: rest := by
  induction A with
  | nil => exact ⟨rfl, rfl⟩
  | cons a A ih =>
    have ha := hAp a (List.mem_cons_self _ _)
    obtain ⟨h1, h2⟩ := ih (fun c hc => hAp c (List.mem_cons_of_mem _ hc))
    constructor
    · rw [List.cons_append, List.takeWhile_cons, if_pos (by rw [ha]; rfl), h1]
    · rw [List.cons_append, List.dropWhile_cons, if_pos (by rw [ha]; rfl), h2]

/-- Splitting one space followed by a whitespace-free token. -/
lemma tail_parse (B : List Char) (hB1 : B ≠ []) (hBp : ∀ c ∈ B, isSpacePy c = false) :
    (' ' :: B).takeWhile isSpacePy = [' '] ∧
      (' ' :: B).dropWhile isSpacePy = B ∧ B.any isSpacePy = false := by
  cases B with
  | nil => exact absurd rfl hB1
  | cons c cs =>
    have hc := hBp c (List.mem_cons_self _ _)
    refine ⟨?_, ?_, any_eq_false_of_all _ hBp⟩
    · rw [List.takeWhile_cons, if_pos (by rfl), List.takeWhile_cons,
        if_neg (by rw [hc]; simp)]
    · rw [List.dropWhile_cons, if_pos (by rfl), List.dropWhile_cons,
        if_neg (by rw [hc]; simp)]

/-- The grammar match of `A <- B` for whitespace-free nonempty tokens. -/
lemma ruleSyntaxFullmatch_join_larrow (A B : String)
    (hA1 : A.data ≠ []) (hAp : ∀ c ∈ A.data, isSpacePy c = false)
    (hB1 : B.data ≠ []) (hBp : ∀ c ∈ B.data, isSpacePy c = false) :
    ruleSyntaxFullmatch (A ++ " <- " ++ B) = some (A, "<-", B) := by
  have hdata : (A ++ " <- " ++ B).data = A.data ++ ' ' :: '<' :: '-' :: ' ' :: B.data := by
    rw [String.data_append, String.data_append]
    simp
  obtain ⟨hT, hD⟩ := lhs_split A.data ('<' :: '-' :: ' ' :: B.data) hAp
  obtain ⟨hT2, hD2, hAny⟩ := tail_parse B.data hB1 hBp
  have harrow1 : tryArrowAt ('<' :: '-' :: ' ' :: B.data) ['<', '-'] = some B.data := by
    show (if ((' ' :: B.data).takeWhile isSpacePy).length = 0 then none
      else if ((' ' :: B.data).dropWhile isSpacePy).length = 0 then none
      else if ((' ' :: B.data).dropWhile isSpacePy).any isSpacePy then none
      else some ((' ' :: B.data).dropWhile isSpacePy)) = some B.data
    rw [hT2, hD2, if_neg (by decide),
      if_neg (fun h => hB1 (List.length_eq_zero.mp h)),
      if_neg (by rw [hAny]; simp)]
  have htry : tryArrows ('<' :: '-' :: ' ' :: B.data) arrowCandidates =
      some (['<', '-'], B.data) := by
    show (match tryArrowAt ('<' :: '-' :: ' ' :: B.data) ['<', '-'] with
      | some rhs => some ((['<', '-'] : List Char), rhs)
      | none => tryArrows ('<' :: '-' :: ' ' :: B.data)
          [['-', '>'], ['<', '-', '>'], ['<', '='], ['=', '>'], ['<', '=', '>']]) =
      some (['<', '-'], B.data)
    rw [harrow1]
  simp only [ruleSyntaxFullmatch]
  rw [hdata, hT, hD]
  rw [if_neg (fun h => hA1 (List.length_eq_zero.mp h))]
  have hws1 : (' ' :: '<' :: '-' :: ' ' :: B.data).takeWhile isSpacePy = [' '] := rfl
  have hrest2 : (' ' :: '<' :: '-' :: ' ' :: B.data).dropWhile isSpacePy =
      '<' :: '-' :: ' ' :: B.data := rfl
  rw [hws1, hrest2, if_neg (by decide), htry]

/-- The grammar match of `A -> B` for whitespace-free nonempty tokens. -/
lemma ruleSyntaxFullmatch_join_rarrow (A B : String)
    (hA1 : A.data ≠ []) (hAp : ∀ c ∈ A.data, isSpacePy c = false)
    (hB1 : B.data ≠ []) (hBp : ∀ c ∈ B.data, isSpacePy c = false) :
    ruleSyntaxFullmatch (A ++ " -> " ++ B) = some (A, "->", B) := by
  have hdata : (A ++ " -> " ++ B).data = A.data ++ ' ' :: '-' :: '>' :: ' ' :: B.data := by
    rw [String.data_append, String.data_append]
    simp
  obtain ⟨hT, hD⟩ := lhs_split A.data ('-' :: '>' :: ' ' :: B.data) hAp
  obtain ⟨hT2, hD2, hAny⟩ := tail_parse B.data hB1 hBp
  have harrow2 : tryArrowAt ('-' :: '>' :: ' ' :: B.data) ['-', '>'] = some B.data := by
    show (if ((' ' :: B.data).takeWhile isSpacePy).length = 0 then none
      else if ((' ' :: B.data).dropWhile isSpacePy).length = 0 then none
      else if ((' ' :: B.data).dropWhile isSpacePy).any isSpacePy then none
      else some ((' ' :: B.data).dropWhile isSpacePy)) = some B.data
    rw [hT2, hD2, if_neg (by decide),
      if_neg (fun h => hB1 (List.length_eq_zero.mp h)),
      if_neg (by rw [hAny]; simp)]
  have htry : tryArrows ('-' :: '>' :: ' ' :: B.data) arrowCandidates =
      some (['-', '>'], B.data) := by
    show (match tryArrowAt ('-' :: '>' :: ' ' :: B.data) ['-', '>'] with
      | some rhs => some ((['-', '>'] : List Char), rhs)
      | none => tryArrows ('-' :: '>' :: ' ' :: B.data)
          [['<', '-', '>'], ['<', '='], ['=', '>'], ['<', '=', '>']]) =
      some (['-', '>'], B.data)
    rw [harrow2]
  simp only [ruleSyntaxFullmatch]
  rw [hdata, hT, hD]
  rw [if_neg (fun h => hA1 (List.length_eq_zero.mp h))]
  have hws1 : (' ' :: '-' :: '>' :: ' ' :: B.data).takeWhile isSpacePy = [' '] := rfl
  have hrest2 : (' ' :: '-' :: '>' :: ' ' :: B.data).dropWhile isSpacePy =
      '-' :: '>' :: ' ' :: B.data := rfl
  rw [hws1, hrest2, if_neg (by decide), htry]

/-- `parse_rule` on a matched `A <- B` rule: normalization swaps the
sides, so the right symbol is resolved first and the arrow becomes
`->`, while `rule_str` keeps the original text. -/
lemma parse_rule_larrow (w : WGGen) (A B : String)
    (h : ruleSyntaxFullmatch (A ++ " <- " ++ B) = some (A, "<-", B)) :
    parse_rule w (A ++ " <- " ++ B) =
      (match resolveSide w B with
        | .error e => .error e
        | .ok lhs =>
          match resolveSide w A with
          | .error e => .error e
          | .ok rhs => .ok ⟨A ++ " <- " ++ B, lhs, "->", rhs⟩) := by
  unfold parse_rule
  rw [h]
  rfl

/-- `parse_rule` on a matched `B -> A` rule: no normalization, the left
symbol is resolved first. -/
lemma parse_rule_rarrow (w : WGGen) (B A : String)
    (h : ruleSyntaxFullmatch (B ++ " -> " ++ A) = some (B, "->", A)) :
    parse_rule w (B ++ " -> " ++ A) =
      (match resolveSide w B with
        | .error e => .error e
        | .ok lhs =>
          match resolveSide w A with
          | .error e => .error e
          | .ok rhs => .ok ⟨B ++ " -> " ++ A, lhs, "->", rhs⟩) := by
  unfold parse_rule
  rw [h]
  rfl

/-- Dropping the last element of a generated command removes exactly the
comment text, the only component that depends on the rule string. -/
lemma iptables_rule_dropLast (rule_str : String) (src dst : Option Target)
    (is_ipv4 : Bool) (in_ifname out_ifname : Option String)
    (only_established : Bool) :
    (iptables_rule rule_str src dst is_ipv4 in_ifname out_ifname
        only_established).dropLast =
      (if is_ipv4 then ["iptables"] else ["ip6tables"]) ++
        ["-A", "FORWARD"] ++
        (if only_established then ["-m", "state", "--state", "ESTABLISHED,RELATED"]
          else []) ++
        (match in_ifname with | some i => ["-i", i] | none => []) ++
        (match out_ifname with | some o => ["-o", o] | none => []) ++
        (match src with | some t => ["-s", t.str] | none => []) ++
        (match dst with | some t => ["-d", t.str] | none => []) ++
        ["-j", "ACCEPT"] ++ ["-m", "comment", "--comment"] := by
  unfold iptables_rule
  rw [show (["-m", "comment", "--comment",
      if only_established then "only established: " ++ rule_str else rule_str] :
        List String) =
      ["-m", "comment", "--comment"] ++
        [if only_established then "only established: " ++ rule_str else rule_str]
      from rfl]
  rw [← List.append_assoc]
  exact List.dropLast_concat

/-- The command lists generated for two rules that differ only in their
rule string agree after dropping each command's trailing comment text. -/
lemma iterate_commands_dropLast (w : WGGen) (rs1 rs2 : String)
    (lhs rhs : ParsedSide) (ar : String) :
    (iterate_commands w ⟨rs1, lhs, ar, rhs⟩).map List.dropLast =
      (iterate_commands w ⟨rs2, lhs, ar, rhs⟩).map List.dropLast := by
  unfold iterate_commands iterate_ipversion_commands
  simp only [List.map_append, List.map_flatMap, List.map_cons, List.map_nil,
    iptables_rule_dropLast]

/-- Sample topology for concrete evaluations of the rule compiler:
host1 = 10.0.0.2, host2 = 10.0.0.3, one group `lab`, interface `wg0`. -/
def sampleTarget1 : Target := .addr ⟨4, 0x0A000002⟩

def sampleTarget2 : Target := .addr ⟨4, 0x0A000003⟩

def sampleWG : WGGen :=
  ⟨[("host1", ⟨"host1", [sampleTarget1]⟩), ("host2", ⟨"host2", [sampleTarget2]⟩)],
    [("lab", [⟨"host1", [sampleTarget1]⟩, ⟨"host2", [sampleTarget2]⟩])], "wg0"⟩

/-- The resolved form of the rule `host1 -> host2` over `sampleWG`. -/
def sampleRule : ParsedRule :=
  ⟨"host1 -> host2", ⟨true, [some sampleTarget1]⟩, "->", ⟨true, [some sampleTarget2]⟩⟩

/-- C1: for every resolved rule, every IP-version pass and every
(lhs, rhs) pair of the filtered cartesian expansion, the generated
command list contains the forward command lhs→rhs with
`only_established = false` and the reverse command rhs→lhs with
`only_established = not bidirectional`, where `bidirectional` holds
exactly for the arrows `<->` and `<=>` — so a one-way rule admits only
established reverse traffic while a bidirectional rule admits both
directions unconditionally. -/
theorem c1_established_only_asymmetry (w : WGGen) (r : ParsedRule)
    (is_ipv4 : Bool) (pred : Option Target → Bool) (l m : Option Target)
    (hmem : (l, m) ∈ listProduct (r.lhs.networks.filter pred)
      (r.rhs.networks.filter pred)) :
    (iptables_rule r.rule_str l m is_ipv4
        (if arrowOnlyWg r.arrow then some w.concentrator_ifname
          else if r.lhs.bind_interface then some w.concentrator_ifname else none)
        (if arrowOnlyWg r.arrow then some w.concentrator_ifname
          else if r.rhs.bind_interface then some w.concentrator_ifname else none)
        false ∈ iterate_ipversion_commands w r is_ipv4 pred) ∧
      (iptables_rule r.rule_str m l is_ipv4
        (if arrowOnlyWg r.arrow then some w.concentrator_ifname
          else if r.rhs.bind_interface then some w.concentrator_ifname else none)
        (if arrowOnlyWg r.arrow then some w.concentrator_ifname
          else if r.lhs.bind_interface then some w.concentrator_ifname else none)
        (! arrowBidirectional r.arrow) ∈
          iterate_ipversion_commands w r is_ipv4 pred) ∧
      (arrowBidirectional r.arrow = true ↔
        (r.arrow = "<->" ∨ r.arrow = "<=>")) := by
  refine ⟨?_, ?_, ?_⟩
  · unfold iterate_ipversion_commands
    exact List.mem_flatMap.mpr ⟨(l, m), hmem, List.mem_cons_self _ _⟩
  · unfold iterate_ipversion_commands
    exact List.mem_flatMap.mpr
      ⟨(l, m), hmem, List.mem_cons_of_mem _ (List.mem_cons_self _ _)⟩
  · simp [arrowBidirectional, Bool.or_eq_true, beq_iff_eq]

theorem c1_established_only_witness :
    ((some sampleTarget1, some sampleTarget2) ∈
        listProduct (sampleRule.lhs.networks.filter (versionPred 4))
          (sampleRule.rhs.networks.filter (versionPred 4))) ∧
      ((iptables_rule sampleRule.rule_str (some sampleTarget1) (some sampleTarget2)
          true
          (if arrowOnlyWg sampleRule.arrow then some sampleWG.concentrator_ifname
            else if sampleRule.lhs.bind_interface then some sampleWG.concentrator_ifname
            else none)
          (if arrowOnlyWg sampleRule.arrow then some sampleWG.concentrator_ifname
            else if sampleRule.rhs.bind_interface then some sampleWG.concentrator_ifname
            else none)
          false ∈ iterate_ipversion_commands sampleWG sampleRule true (versionPred 4)) ∧
        (iptables_rule sampleRule.rule_str (some sampleTarget2) (some sampleTarget1)
          true
          (if arrowOnlyWg sampleRule.arrow then some sampleWG.concentrator_ifname
            else if sampleRule.rhs.bind_interface then some sampleWG.concentrator_ifname
            else none)
          (if arrowOnlyWg sampleRule.arrow then some sampleWG.concentrator_ifname
            else if sampleRule.lhs.bind_interface then some sampleWG.concentrator_ifname
            else none)
          (! arrowBidirectional sampleRule.arrow) ∈
            iterate_ipversion_commands sampleWG sampleRule true (versionPred 4)) ∧
        (arrowBidirectional sampleRule.arrow = true ↔
          (sampleRule.arrow = "<->" ∨ sampleRule.arrow = "<=>"))) :=
  ⟨by decide, c1_established_only_asymmetry sampleWG sampleRule true (versionPred 4)
    (some sampleTarget1) (some sampleTarget2) (by decide)⟩

/-- C6: compiling `A <- B` is claimed byte-identical to compiling
`B -> A`; in fact the comment field carries the original rule string
verbatim, so the two outputs differ, at the concrete hosts host1 and
host2 of the sample topology. -/
theorem c6_counterexample :
    compileRule sampleWG "host1 <- host2" ≠ compileRule sampleWG "host2 -> host1" := by
  decide

/-- C6 (amended): for all nonempty whitespace-free printable-ASCII
symbols A and B, compiling `A <- B` and compiling `B -> A` agree on
everything except each command's final element — the comment text, which
carries the original rule string: the outputs are identical after that
trailing element is dropped from every command, and in particular they
agree on sources, destinations, interfaces and established-only flags. -/
theorem c6_amended_identical_up_to_comment (w : WGGen) (A B : String)
    (hA1 : A.data ≠ []) (hAp : ∀ c ∈ A.data, 0x20 < c.toNat ∧ c.toNat < 0x7f)
    (hB1 : B.data ≠ []) (hBp : ∀ c ∈ B.data, 0x20 < c.toNat ∧ c.toNat < 0x7f) :
    Except.map (List.map List.dropLast) (compileRule w (A ++ " <- " ++ B)) =
      Except.map (List.map List.dropLast) (compileRule w (B ++ " -> " ++ A)) := by
  have hAs : ∀ c ∈ A.data, isSpacePy c = false :=
    fun c hc => not_space_printable (hAp c hc).1
  have hBs : ∀ c ∈ B.data, isSpacePy c = false :=
    fun c hc => not_space_printable (hBp c hc).1
  have hp1 := ruleSyntaxFullmatch_join_larrow A B hA1 hAs hB1 hBs
  have hp2 := ruleSyntaxFullmatch_join_rarrow B A hB1 hBs hA1 hAs
  unfold compileRule
  rw [parse_rule_larrow w A B hp1, parse_rule_rarrow w B A hp2]
  cases hrB : resolveSide w B with
  | error e => rfl
  | ok sB =>
    cases hrA : resolveSide w A with
    | error e => rfl
    | ok sA =>
      show Except.ok ((iterate_commands w ⟨A ++ " <- " ++ B, sB, "->", sA⟩).map
          List.dropLast) =
        Except.ok ((iterate_commands w ⟨B ++ " -> " ++ A, sB, "->", sA⟩).map
          List.dropLast)
      rw [iterate_commands_dropLast w (A ++ " <- " ++ B) (B ++ " -> " ++ A) sB sA "->"]

theorem c6_amended_witness :
    (("host1" : String).data ≠ [] ∧
        (∀ c ∈ ("host1" : String).data, 0x20 < c.toNat ∧ c.toNat < 0x7f) ∧
        ("host2" : String).data ≠ [] ∧
        (∀ c ∈ ("host2" : String).data, 0x20 < c.toNat ∧ c.toNat < 0x7f)) ∧
      Except.map (List.map List.dropLast)
          (compileRule sampleWG ("host1" ++ " <- " ++ "host2")) =
        Except.map (List.map List.dropLast)
          (compileRule sampleWG ("host2" ++ " -> " ++ "host1")) :=
  ⟨⟨by decide, by decide, by decide, by decide⟩,
    c6_amended_identical_up_to_comment sampleWG "host1" "host2"
      (by decide) (by decide) (by decide) (by decide)⟩

/-- C8: resolving the literal side `!bogus` is claimed to fail with
`RuleParseException`; it fails with the address library's `ValueError`
instead, which `_resolve` does not translate. -/
theorem c8_counterexample :
    resolveSide sampleWG "!bogus" = .error .valueError ∧
      resolveSide sampleWG "!bogus" ≠ .error (.ruleParseException "!bogus") := by
  decide

/-- C8 (amended): a rule side of the form `!text` never consults the
host directory: when `text` is a valid network or address literal the
side resolves to exactly that literal network taken as-is with
`bind_interface = false`; otherwise resolution fails with the `ValueError`
raised by the address parser, which is not translated into
`RuleParseException`. -/
theorem c8_amended_literal_side_resolution (w : WGGen) (t : String) :
    resolveSide w ("!" ++ t) =
      (match ip_network_parse t with
        | some n => .ok ⟨false, [some (.net n)]⟩
        | none => .error .valueError) := by
  have hdata : ("!" ++ t).data = '!' :: t.data := by
    rw [String.data_append]
    rfl
  have hne : ("!" ++ t) ≠ "*" := by
    intro h
    have h2 := congrArg String.data h
    rw [hdata, show ("*" : String).data = ['*'] from rfl] at h2
    injection h2 with h3 h4
    exact absurd h3 (by decide)
  unfold resolveSide
  rw [if_neg hne, hdata]
  rfl
